import Mathlib

/-!
Verification of the `hello-agent` lite agent (`packages/agent-lite`) against
its design specification.

The development shallowly embeds the JavaScript source:

* `resolveSandboxPath` / `ensureSandbox` from `src/tools/sandbox.js`
  (POSIX path resolution modelled on character lists);
* the strict JSON protocol parser `parseModelOutput` /
  `normalizeModelOutput` from `agent.js`, over an executable model of
  `JSON.parse`;
* the tool layer `validateArgs` / `runTool` from `src/tools/index.js`,
  over an explicit filesystem state instrumented with an operation trace;
* the agent loop `runLiteAgent` from `agent.js`, with the LLM client
  adapter abstracted as a function from message sequences to completions.

JavaScript strings are modelled as Lean `String`/`List Char`; machine
integers do not occur in the modelled code.  JSON numbers are kept as
their (validated) source literals: none of the modelled code inspects a
numeric value, except for the truthiness test `action.args || {}`, which
is modelled exactly on the literal.
-/

namespace HelloAgent

instance {ε α : Type} [DecidableEq ε] [DecidableEq α] :
    DecidableEq (Except ε α) := fun x y =>
  match x, y with
  | .ok a, .ok b =>
    if h : a = b then isTrue (by rw [h]) else isFalse (by simp [h])
  | .error a, .error b =>
    if h : a = b then isTrue (by rw [h]) else isFalse (by simp [h])
  | .ok _, .error _ => isFalse (by simp)
  | .error _, .ok _ => isFalse (by simp)

/-! ### Character and list utilities (JS string primitives) -/

/-- Whitespace recognised by JavaScript `String.prototype.trim`
(the characters that can actually occur in the modelled data). -/
def isJsWs (c : Char) : Bool :=
  c = ' ' || c = '\t' || c = '\n' || c = '\r' ||
  c = Char.ofNat 11 || c = Char.ofNat 12 || c = Char.ofNat 160 ||
  c = Char.ofNat 0xfeff || c = Char.ofNat 0x2028 || c = Char.ofNat 0x2029

/-- Drop trailing characters satisfying `p`. -/
def dropTrail (p : Char → Bool) (cs : List Char) : List Char :=
  (cs.reverse.dropWhile p).reverse

/-- JS `trim` on a character list. -/
def trimChars (cs : List Char) : List Char :=
  dropTrail isJsWs (cs.dropWhile isJsWs)

/-- JS `String.prototype.trim`. -/
def jsTrim (s : String) : String := ⟨trimChars s.data⟩

/-- Split a character list at every occurrence of `sep` (keeping empty
parts, like JS `split`). -/
def splitSep (sep : Char) : List Char → List (List Char)
  | [] => [[]]
  | c :: cs =>
    if c = sep then [] :: splitSep sep cs
    else
      match splitSep sep cs with
      | [] => [[c]]
      | s :: rest => (c :: s) :: rest

/-- Interleave `sep` between the parts (JS `Array.prototype.join`). -/
def joinSep (sep : Char) : List (List Char) → List Char
  | [] => []
  | [s] => s
  | s :: rest => s ++ sep :: joinSep sep rest

/-- First-occurrence deduplication (the order `Object.keys`/`readdir`
reports names in). -/
def dedupFirst : List (List Char) → List (List Char)
  | [] => []
  | x :: xs => x :: (dedupFirst xs).filter (fun y => ¬ y = x)

/-! ### Error taxonomy

Each constructor corresponds to one `throw new Error(...)` site of the
source; the string payloads are the dynamic parts of the thrown message. -/

inductive Err where
  /-- "input must be a non-empty string." -/
  | invalidInput
  /-- "Missing OPENAI_API_KEY in environment." -/
  | missingApiKey
  /-- "Missing OPENAI_MODEL in environment." -/
  | missingModel
  /-- "Empty model response." (and adapter failures) -/
  | emptyModelResponse
  /-- Network / upstream API failure inside the adapter. -/
  | adapterFailure (msg : String)
  /-- The four `parseModelOutput` failure messages. -/
  | malformedOutput (msg : String)
  /-- "Unknown tool: name" -/
  | unknownTool (name : String)
  /-- `validateArgs` failures ("args must be an object.", field messages). -/
  | invalidArgs (msg : String)
  /-- "Path escapes sandbox: userPath" -/
  | pathEscape (userPath : String)
  /-- Propagated filesystem errors (ENOENT / EISDIR / ENOTDIR). -/
  | fsFailure (kind : Nat)
  /-- The dead fall-through "Unhandled tool: name". -/
  | unhandledTool (name : String)
  /-- "Exceeded max iterations." -/
  | maxIterations
  deriving DecidableEq, Repr

/-! ### Sandbox path resolver (`src/tools/sandbox.js`)

POSIX `path.resolve(root, userPath)` with `root` an absolute normalized
path: if `userPath` is absolute the root is ignored, otherwise the two
are joined; `.`/`..`/empty segments are then normalized away, `..`
clamping at the filesystem root. -/

/-- One path segment. -/
abbrev Seg := List Char

/-- Stack-based segment normalization: `acc` is the (reversed) stack of
kept segments. Mirrors Node's `normalizeString` for absolute paths. -/
def normSegs (acc : List Seg) : List Seg → List Seg
  | [] => acc.reverse
  | s :: rest =>
    if s = [] ∨ s = ['.'] then normSegs acc rest
    else if s = ['.', '.'] then normSegs acc.tail rest
    else normSegs (s :: acc) rest

/-- The segments of `path.resolve(root, user)` for an absolute `root`:
an absolute `user` ignores the root, a relative one is joined to it, and
the segments are normalized. -/
def resolvedSegs (root user : List Char) : List Seg :=
  normSegs [] (splitSep '/'
    (if user.head? = some '/' then user else root ++ '/' :: user))

/-- Render a normalized segment list as an absolute path. -/
def segsToPath (segs : List Seg) : List Char :=
  '/' :: joinSep '/' segs

/-- `path.resolve(SANDBOX_DIR, userPath)` on character lists. -/
def pathResolve (root user : List Char) : List Char :=
  segsToPath (resolvedSegs root user)

/-- `resolveSandboxPath` from `sandbox.js`:
`const target = path.resolve(SANDBOX_DIR, userPath);
 if (target !== SANDBOX_DIR && !target.startsWith(SANDBOX_DIR + path.sep))
   throw new Error("Path escapes sandbox: " + userPath);
 return target;` -/
def resolveSandboxPath (root user : List Char) : Except Err (List Char) :=
  if pathResolve root user == root ||
      (root ++ ['/']).isPrefixOf (pathResolve root user)
  then .ok (pathResolve root user)
  else .error (.pathEscape ⟨user⟩)

/-- A segment a normalized path can consist of: nonempty and without a
separator. -/
def validSeg (s : Seg) : Prop := s ≠ [] ∧ '/' ∉ s

/-- A segment of a normalized root path: additionally not `.` or `..`. -/
def rootSeg (s : Seg) : Prop := validSeg s ∧ s ≠ ['.'] ∧ s ≠ ['.', '.']

instance : DecidablePred validSeg := fun s => by
  unfold validSeg; infer_instance

instance : DecidablePred rootSeg := fun s => by
  unfold rootSeg; infer_instance

/-! ### Lemmas about splitting and joining paths -/

theorem splitSep_ne_nil (sep : Char) (cs : List Char) : splitSep sep cs ≠ [] := by
  induction cs with
  | nil => simp [splitSep]
  | cons c cs ih =>
    simp only [splitSep]
    split
    · simp
    · split
      · simp
      · simp

theorem sep_not_mem_splitSep (sep : Char) (cs : List Char) :
    ∀ s ∈ splitSep sep cs, sep ∉ s := by
  induction cs with
  | nil =>
    intro s hs
    simp only [splitSep, List.mem_singleton] at hs
    simp [hs]
  | cons c cs ih =>
    intro s hs
    simp only [splitSep] at hs
    by_cases hc : c = sep
    · rw [if_pos hc] at hs
      rcases List.mem_cons.mp hs with h | h
      · simp [h]
      · exact ih s h
    · rw [if_neg hc] at hs
      obtain ⟨t, rest, heq⟩ := List.exists_cons_of_ne_nil (splitSep_ne_nil sep cs)
      rw [heq] at hs
      rcases List.mem_cons.mp hs with h | h
      · subst h
        intro hmem
        rcases List.mem_cons.mp hmem with h' | h'
        · exact hc h'.symm
        · exact ih t (heq ▸ List.mem_cons_self t rest) h'
      · exact ih s (heq ▸ List.mem_cons_of_mem t h)

theorem splitSep_sepFree (sep : Char) (a : List Char) (h : sep ∉ a) :
    splitSep sep a = [a] := by
  induction a with
  | nil => rfl
  | cons c cs ih =>
    have hc : ¬ c = sep := by
      rintro rfl; exact h (List.mem_cons_self c cs)
    have h' : sep ∉ cs := fun hm => h (List.mem_cons_of_mem c hm)
    simp [splitSep, if_neg hc, ih h']

theorem splitSep_sepFree_append (sep : Char) (a : List Char) (h : sep ∉ a)
    (u : List Char) : splitSep sep (a ++ sep :: u) = a :: splitSep sep u := by
  induction a with
  | nil => simp [splitSep]
  | cons c cs ih =>
    have hc : ¬ c = sep := by
      rintro rfl; exact h (List.mem_cons_self c cs)
    have h' : sep ∉ cs := fun hm => h (List.mem_cons_of_mem c hm)
    simp [splitSep, if_neg hc, ih h']

theorem joinSep_append (sep : Char) (R S : List (List Char)) (hR : R ≠ [])
    (hS : S ≠ []) :
    joinSep sep (R ++ S) = joinSep sep R ++ sep :: joinSep sep S := by
  induction R with
  | nil => cases hR rfl
  | cons a r ih =>
    cases r with
    | nil =>
      obtain ⟨b, s, rfl⟩ := List.exists_cons_of_ne_nil hS
      simp [joinSep]
    | cons a2 r2 =>
      have step : joinSep sep ((a :: a2 :: r2) ++ S)
          = a ++ sep :: joinSep sep ((a2 :: r2) ++ S) := by
        simp only [List.cons_append]
        rfl
      rw [step, ih (by simp)]
      have h2 : joinSep sep (a :: a2 :: r2)
          = a ++ sep :: joinSep sep (a2 :: r2) := rfl
      rw [h2]
      simp

theorem splitSep_join_append (sep : Char) (segs : List (List Char))
    (u : List Char) (hne : segs ≠ []) (h : ∀ s ∈ segs, sep ∉ s) :
    splitSep sep (joinSep sep segs ++ sep :: u) = segs ++ splitSep sep u := by
  induction segs with
  | nil => cases hne rfl
  | cons a r ih =>
    cases r with
    | nil =>
      simpa [joinSep] using splitSep_sepFree_append sep a (h a (by simp)) u
    | cons b r2 =>
      have h1 : joinSep sep (a :: b :: r2) = a ++ sep :: joinSep sep (b :: r2) := rfl
      rw [h1, List.append_assoc, List.cons_append,
        splitSep_sepFree_append sep a (h a (by simp)),
        ih (by simp) (fun s hs => h s (List.mem_cons_of_mem a hs))]
      rfl

/-! ### Lemmas about `normSegs` -/

theorem normSegs_rootSegs (segs : List Seg) (rest acc : List Seg)
    (h : ∀ s ∈ segs, rootSeg s) :
    normSegs acc (segs ++ rest) = normSegs (segs.reverse ++ acc) rest := by
  induction segs generalizing acc with
  | nil => simp
  | cons a r ih =>
    obtain ⟨⟨hne, _⟩, hdot, hdd⟩ := h a (by simp)
    have h1 : ¬ (a = [] ∨ a = ['.']) := by
      rintro (h' | h')
      · exact hne h'
      · exact hdot h'
    simp only [List.cons_append, normSegs, if_neg h1, if_neg hdd]
    show normSegs (a :: acc) (r ++ rest) = normSegs ((a :: r).reverse ++ acc) rest
    rw [ih (a :: acc) (fun s hs => h s (List.mem_cons_of_mem a hs))]
    simp

theorem validSeg_normSegs : ∀ l acc : List Seg, (∀ s ∈ acc, validSeg s) →
    (∀ s ∈ l, '/' ∉ s) → ∀ s ∈ normSegs acc l, validSeg s := by
  intro l
  induction l with
  | nil =>
    intro acc hacc _ s hs
    rw [normSegs] at hs
    exact hacc s (List.mem_reverse.mp hs)
  | cons a r ih =>
    intro acc hacc hl s hs
    rw [normSegs] at hs
    by_cases h1 : a = [] ∨ a = ['.']
    · rw [if_pos h1] at hs
      exact ih acc hacc (fun t ht => hl t (List.mem_cons_of_mem a ht)) s hs
    · rw [if_neg h1] at hs
      by_cases h2 : a = ['.', '.']
      · rw [if_pos h2] at hs
        exact ih acc.tail (fun t ht => hacc t (List.tail_subset acc ht))
          (fun t ht => hl t (List.mem_cons_of_mem a ht)) s hs
      · rw [if_neg h2] at hs
        refine ih (a :: acc) ?_ (fun t ht => hl t (List.mem_cons_of_mem a ht)) s hs
        intro t ht
        rcases List.mem_cons.mp ht with h' | h'
        · rw [h']
          exact ⟨fun h0 => h1 (Or.inl h0), hl a (List.mem_cons_self a r)⟩
        · exact hacc t h'

/-! ### The separator-framed prefix characterization -/

theorem firstSep_eq {sep : Char} {x y u v : List Char} (hx : sep ∉ x)
    (hy : sep ∉ y) (h : x ++ sep :: u = y ++ sep :: v) : x = y ∧ u = v := by
  induction x generalizing y with
  | nil =>
    cases y with
    | nil => simpa using h
    | cons d y' =>
      exfalso
      have : sep = d := by simpa using congrArg (List.head? ·) h
      exact hy (this ▸ List.mem_cons_self d y')
  | cons c x' ih =>
    cases y with
    | nil =>
      exfalso
      have : c = sep := by simpa using congrArg (List.head? ·) h
      exact hx (this ▸ List.mem_cons_self c x')
    | cons d y' =>
      have h1 : c = d := by simpa using congrArg (List.head? ·) h
      have h2 : x' ++ sep :: u = y' ++ sep :: v := by
        simpa [h1] using congrArg List.tail h
      obtain ⟨he, hu⟩ := ih (fun hm => hx (List.mem_cons_of_mem c hm))
        (fun hm => hy (List.mem_cons_of_mem d hm)) h2
      exact ⟨by rw [h1, he], hu⟩

theorem firstSep_pre {sep : Char} {x y u v : List Char} (hx : sep ∉ x)
    (hy : sep ∉ y) (h : (x ++ sep :: u) <+: (y ++ sep :: v)) :
    x = y ∧ u <+: v := by
  induction x generalizing y with
  | nil =>
    cases y with
    | nil => exact ⟨rfl, by simpa using h⟩
    | cons d y' =>
      exfalso
      have : sep = d := by
        simpa using (List.cons_prefix_cons.mp (by simpa using h)).1
      exact hy (this ▸ List.mem_cons_self d y')
  | cons c x' ih =>
    cases y with
    | nil =>
      exfalso
      have : c = sep := by
        simpa using (List.cons_prefix_cons.mp (by simpa using h)).1
      exact hx (this ▸ List.mem_cons_self c x')
    | cons d y' =>
      have h0 := List.cons_prefix_cons.mp (by simpa using h)
      obtain ⟨he, hu⟩ := ih (fun hm => hx (List.mem_cons_of_mem c hm))
        (fun hm => hy (List.mem_cons_of_mem d hm)) h0.2
      exact ⟨by rw [h0.1, he], hu⟩

theorem joinSep_inj : ∀ R T : List (List Char), (∀ s ∈ R, validSeg s) →
    (∀ s ∈ T, validSeg s) → joinSep '/' R = joinSep '/' T → R = T := by
  intro R
  induction R with
  | nil =>
    intro T _ hT h
    cases T with
    | nil => rfl
    | cons t ts =>
      exfalso
      cases ts with
      | nil => exact (hT t (by simp)).1 (by simpa [joinSep] using h.symm)
      | cons t2 ts2 =>
        have h0 : ([] : List Char) = t ++ '/' :: joinSep '/' (t2 :: ts2) := h
        have hlen := congrArg List.length h0
        simp only [List.length_nil, List.length_append, List.length_cons] at hlen
        omega
  | cons a rs ih =>
    intro T hR hT h
    cases rs with
    | nil =>
      cases T with
      | nil =>
        exfalso
        exact (hR a (by simp)).1 (by simpa [joinSep] using h)
      | cons b ts =>
        cases ts with
        | nil => simpa [joinSep] using h
        | cons b2 ts2 =>
          exfalso
          have hmem : '/' ∈ joinSep '/' (b :: b2 :: ts2) := by
            have : joinSep '/' (b :: b2 :: ts2)
                = b ++ '/' :: joinSep '/' (b2 :: ts2) := rfl
            rw [this]
            exact List.mem_append_right b (List.mem_cons_self _ _)
          have ha : joinSep '/' [a] = a := rfl
          rw [← h, ha] at hmem
          exact (hR a (by simp)).2 hmem
    | cons a2 rs2 =>
      cases T with
      | nil =>
        exfalso
        have h0 : a ++ '/' :: joinSep '/' (a2 :: rs2) = ([] : List Char) := h
        have hlen := congrArg List.length h0
        simp only [List.length_nil, List.length_append, List.length_cons] at hlen
        omega
      | cons b ts =>
        cases ts with
        | nil =>
          exfalso
          have hmem : '/' ∈ joinSep '/' (a :: a2 :: rs2) := by
            have : joinSep '/' (a :: a2 :: rs2)
                = a ++ '/' :: joinSep '/' (a2 :: rs2) := rfl
            rw [this]
            exact List.mem_append_right a (List.mem_cons_self _ _)
          have hb : joinSep '/' [b] = b := rfl
          rw [h, hb] at hmem
          exact (hT b (by simp)).2 hmem
        | cons b2 ts2 =>
          have h' : a ++ '/' :: joinSep '/' (a2 :: rs2)
              = b ++ '/' :: joinSep '/' (b2 :: ts2) := h
          obtain ⟨h1, h2⟩ := firstSep_eq (hR a (by simp)).2 (hT b (by simp)).2 h'
          have h3 := ih (b2 :: ts2)
            (fun s hs => hR s (List.mem_cons_of_mem a hs))
            (fun s hs => hT s (List.mem_cons_of_mem b hs)) h2
          rw [h1, h3]

theorem join_pre_iff : ∀ R T : List (List Char), (∀ s ∈ R, validSeg s) →
    (∀ s ∈ T, validSeg s) → R ≠ [] →
    ((joinSep '/' R = joinSep '/' T ∨
      (joinSep '/' R ++ ['/']) <+: joinSep '/' T) ↔ R <+: T) := by
  intro R
  induction R with
  | nil => intro T _ _ hne; cases hne rfl
  | cons a rs ih =>
    intro T hR hT _
    constructor
    · rintro (heq | hpre)
      · rw [joinSep_inj (a :: rs) T hR hT heq]
      · cases rs with
        | nil =>
          cases T with
          | nil =>
            exfalso
            have hlen := hpre.length_le
            simp [joinSep] at hlen
          | cons b ts =>
            cases ts with
            | nil =>
              exfalso
              obtain ⟨tl, htl⟩ := hpre
              have hmem : '/' ∈ joinSep '/' [b] := by
                rw [← htl]
                exact List.mem_append_left tl
                  (List.mem_append_right (joinSep '/' [a]) (by simp))
              exact (hT b (by simp)).2 hmem
            | cons b2 ts2 =>
              have hpre' : (a ++ '/' :: ([] : List Char))
                  <+: (b ++ '/' :: joinSep '/' (b2 :: ts2)) := by
                have ha : joinSep '/' [a] ++ ['/'] = a ++ '/' :: [] := rfl
                have hb : joinSep '/' (b :: b2 :: ts2)
                    = b ++ '/' :: joinSep '/' (b2 :: ts2) := rfl
                rw [← ha, ← hb]
                exact hpre
              obtain ⟨h1, _⟩ := firstSep_pre (hR a (by simp)).2
                (hT b (by simp)).2 hpre'
              rw [h1]
              exact List.cons_prefix_cons.mpr ⟨rfl, List.nil_prefix⟩
        | cons a2 rs2 =>
          cases T with
          | nil =>
            exfalso
            have hlen := hpre.length_le
            simp [joinSep] at hlen
          | cons b ts =>
            cases ts with
            | nil =>
              exfalso
              obtain ⟨tl, htl⟩ := hpre
              have hmem : '/' ∈ joinSep '/' [b] := by
                rw [← htl]
                refine List.mem_append_left tl (List.mem_append_left _ ?_)
                have : joinSep '/' (a :: a2 :: rs2)
                    = a ++ '/' :: joinSep '/' (a2 :: rs2) := rfl
                rw [this]
                exact List.mem_append_right a (List.mem_cons_self _ _)
              exact (hT b (by simp)).2 hmem
            | cons b2 ts2 =>
              have hpre' : (a ++ '/' :: (joinSep '/' (a2 :: rs2) ++ ['/']))
                  <+: (b ++ '/' :: joinSep '/' (b2 :: ts2)) := by
                have ha : joinSep '/' (a :: a2 :: rs2) ++ ['/']
                    = a ++ '/' :: (joinSep '/' (a2 :: rs2) ++ ['/']) := by
                  have : joinSep '/' (a :: a2 :: rs2)
                      = a ++ '/' :: joinSep '/' (a2 :: rs2) := rfl
                  rw [this]
                  simp
                have hb : joinSep '/' (b :: b2 :: ts2)
                    = b ++ '/' :: joinSep '/' (b2 :: ts2) := rfl
                rw [← ha, ← hb]
                exact hpre
              obtain ⟨h1, h2⟩ := firstSep_pre (hR a (by simp)).2
                (hT b (by simp)).2 hpre'
              have h3 := (ih (b2 :: ts2)
                (fun s hs => hR s (List.mem_cons_of_mem a hs))
                (fun s hs => hT s (List.mem_cons_of_mem b hs))
                (by simp)).mp (Or.inr h2)
              rw [h1]
              exact List.cons_prefix_cons.mpr ⟨rfl, h3⟩
    · intro hpre
      obtain ⟨S, hS⟩ := hpre
      cases S with
      | nil => left; rw [← hS]; simp
      | cons s0 S' =>
        right
        rw [← hS, joinSep_append '/' (a :: rs) (s0 :: S') (by simp) (by simp),
          List.append_cons (joinSep '/' (a :: rs)) '/' (joinSep '/' (s0 :: S'))]
        exact List.prefix_append _ _

/-! ### The sandbox confinement property -/

theorem validSeg_resolvedSegs (root user : List Char) :
    ∀ s ∈ resolvedSegs root user, validSeg s := fun s hs =>
  validSeg_normSegs _ [] (by simp) (sep_not_mem_splitSep '/' _) s hs

/-- The boolean sandbox check of `resolveSandboxPath` holds exactly when
the normalized target's segments extend the root's segments. -/
theorem sandbox_check_iff (rootSegs : List Seg) (user : List Char)
    (hroot : ∀ s ∈ rootSegs, rootSeg s) (hne : rootSegs ≠ []) :
    ((pathResolve (segsToPath rootSegs) user == segsToPath rootSegs ||
      (segsToPath rootSegs ++ ['/']).isPrefixOf
        (pathResolve (segsToPath rootSegs) user)) = true)
    ↔ rootSegs <+: resolvedSegs (segsToPath rootSegs) user := by
  have hT : ∀ s ∈ resolvedSegs (segsToPath rootSegs) user, validSeg s :=
    validSeg_resolvedSegs _ _
  have hR : ∀ s ∈ rootSegs, validSeg s := fun s hs => (hroot s hs).1
  have base := join_pre_iff rootSegs
    (resolvedSegs (segsToPath rootSegs) user) hR hT hne
  rw [← base, Bool.or_eq_true, beq_iff_eq, List.isPrefixOf_iff_prefix]
  have e1 : pathResolve (segsToPath rootSegs) user
      = '/' :: joinSep '/' (resolvedSegs (segsToPath rootSegs) user) := rfl
  have e2 : segsToPath rootSegs = '/' :: joinSep '/' rootSegs := rfl
  rw [e1, e2]
  constructor
  · rintro (h | h)
    · left
      exact (List.cons.injEq .. ▸ h :
        '/' = '/' ∧ _ = joinSep '/' rootSegs).2.symm
    · right
      have h' : '/' :: (joinSep '/' rootSegs ++ ['/'])
          <+: '/' :: joinSep '/' (resolvedSegs (segsToPath rootSegs) user) := by
        simpa [List.cons_append] using h
      exact (List.cons_prefix_cons.mp h').2
  · rintro (h | h)
    · left
      exact congrArg (fun x => '/' :: x) h.symm
    · right
      have h' : ('/' :: joinSep '/' rootSegs) ++ ['/']
          = '/' :: (joinSep '/' rootSegs ++ ['/']) := by simp
      rw [h']
      exact List.cons_prefix_cons.mpr ⟨rfl, h⟩

/-- Claim C1: the sandbox resolver either fails with `PathEscapeError` or
returns an absolute path equal to the root or extending it past a path
separator; it fails exactly when the normalized target (after resolving
`..` segments and absolute inputs) does not lie under or at the root.
Here the root is any non-root normalized absolute path (the shape
`SANDBOX_DIR` always has), and the normalized target of a user path is
`resolvedSegs`. -/
theorem c1_sandbox_confinement (rootSegs : List Seg) (user : List Char)
    (hroot : ∀ s ∈ rootSegs, rootSeg s) (hne : rootSegs ≠ []) :
    (∀ t, resolveSandboxPath (segsToPath rootSegs) user = .ok t →
        t = segsToPath rootSegs ∨ (segsToPath rootSegs ++ ['/']) <+: t) ∧
    (rootSegs <+: resolvedSegs (segsToPath rootSegs) user →
        resolveSandboxPath (segsToPath rootSegs) user
          = .ok (segsToPath (resolvedSegs (segsToPath rootSegs) user))) ∧
    (¬ rootSegs <+: resolvedSegs (segsToPath rootSegs) user →
        resolveSandboxPath (segsToPath rootSegs) user
          = .error (.pathEscape ⟨user⟩)) := by
  refine ⟨?_, ?_, ?_⟩
  · intro t hok
    unfold resolveSandboxPath at hok
    split at hok
    · rename_i hb
      cases hok
      rcases Bool.or_eq_true .. ▸ hb with h | h
      · exact Or.inl (beq_iff_eq.mp h)
      · exact Or.inr (List.isPrefixOf_iff_prefix.mp h)
    · cases hok
  · intro hp
    have hb := (sandbox_check_iff rootSegs user hroot hne).mpr hp
    unfold resolveSandboxPath
    rw [if_pos hb]
    rfl
  · intro hp
    have hb : ¬ ((pathResolve (segsToPath rootSegs) user == segsToPath rootSegs ||
        (segsToPath rootSegs ++ ['/']).isPrefixOf
          (pathResolve (segsToPath rootSegs) user)) = true) :=
      fun h => hp ((sandbox_check_iff rootSegs user hroot hne).mp h)
    unfold resolveSandboxPath
    rw [if_neg hb]

/-- Witness for C1 at the sibling-directory traversal input
`../sandbox-lite2/a.txt` against root `/sandbox-lite`: the resolver
rejects it with the escape error. -/
theorem c1_sandbox_confinement_witness :
    (∀ s ∈ [("sandbox-lite".data : List Char)], rootSeg s) ∧
    ([("sandbox-lite".data : List Char)] ≠ []) ∧
    resolveSandboxPath (segsToPath [ "sandbox-lite".data ])
        "../sandbox-lite2/a.txt".data
      = .error (.pathEscape "../sandbox-lite2/a.txt") := by
  refine ⟨by decide, by decide, ?_⟩
  exact (c1_sandbox_confinement [ "sandbox-lite".data ]
    "../sandbox-lite2/a.txt".data (by decide) (by decide)).2.2 (by decide)

/-! ### JSON values (`JSON.parse` / `JSON.stringify`)

Numbers are kept as their validated source literal: nothing in the
modelled code inspects a numeric value except JS truthiness, which is
decided on the literal (`numIsZero`).  A `\uXXXX` escape denoting a lone
UTF-16 surrogate is mapped to `Char.ofNat`'s fallback; no modelled claim
involves surrogates. -/

inductive Json where
  | null
  | bool (b : Bool)
  | num (lit : String)
  | str (s : String)
  | arr (elems : List Json)
  | obj (fields : List (String × Json))
  deriving Repr

namespace Json

mutual
def beqJ : Json → Json → Bool
  | .null, .null => true
  | .bool a, .bool b => a == b
  | .num a, .num b => a == b
  | .str a, .str b => a == b
  | .arr a, .arr b => beqL a b
  | .obj a, .obj b => beqF a b
  | _, _ => false

def beqL : List Json → List Json → Bool
  | [], [] => true
  | a :: as, b :: bs => beqJ a b && beqL as bs
  | _, _ => false

def beqF : List (String × Json) → List (String × Json) → Bool
  | [], [] => true
  | (k, v) :: as, (l, w) :: bs => k == l && beqJ v w && beqF as bs
  | _, _ => false
end

mutual
theorem beqJ_iff : ∀ a b : Json, beqJ a b = true ↔ a = b
  | .arr a, .arr b => by
    simp only [beqJ, arr.injEq]
    exact beqL_iff a b
  | .obj a, .obj b => by
    simp only [beqJ, obj.injEq]
    exact beqF_iff a b
  | a, b => by
    cases a <;> cases b <;> simp [beqJ] <;> first
      | exact beqL_iff _ _
      | exact beqF_iff _ _

theorem beqL_iff : ∀ a b : List Json, beqL a b = true ↔ a = b
  | [], [] => by simp [beqL]
  | [], _ :: _ => by simp [beqL]
  | _ :: _, [] => by simp [beqL]
  | a :: as, b :: bs => by
    simp only [beqL, Bool.and_eq_true, List.cons.injEq]
    exact and_congr (beqJ_iff a b) (beqL_iff as bs)

theorem beqF_iff : ∀ a b : List (String × Json), beqF a b = true ↔ a = b
  | [], [] => by simp [beqF]
  | [], _ :: _ => by simp [beqF]
  | _ :: _, [] => by simp [beqF]
  | (k, v) :: as, (l, w) :: bs => by
    simp only [beqF, Bool.and_eq_true, List.cons.injEq, Prod.mk.injEq, and_assoc]
    exact and_congr (by simp) (and_congr (beqJ_iff v w) (beqF_iff as bs))
end

instance : DecidableEq Json := fun a b =>
  decidable_of_iff (beqJ a b = true) (beqJ_iff a b)

end Json

/-- Property lookup on a JS object: first occurrence of the key (the
parser already collapses duplicate keys, later occurrences overwriting
in place, as JS property assignment does). -/
def lookupField (fields : List (String × Json)) (k : String) : Option Json :=
  match fields.find? (fun f => f.1 == k) with
  | some f => some f.2
  | none => none

/-- JS property assignment on an object under construction: overwrite the
first occurrence in place, else append. -/
def setField (fields : List (String × Json)) (k : String) (v : Json) :
    List (String × Json) :=
  match fields with
  | [] => [(k, v)]
  | (k', v') :: rest =>
    if k' == k then (k, v) :: rest else (k', v') :: setField rest k v

/-! #### `JSON.parse` -/

/-- JSON insignificant whitespace. -/
def isWsJson (c : Char) : Bool := c = ' ' || c = '\t' || c = '\n' || c = '\r'

def skipWs (cs : List Char) : List Char := cs.dropWhile isWsJson

def isDigitCh (c : Char) : Bool := '0' ≤ c && c ≤ '9'

def hexVal (c : Char) : Option Nat :=
  if '0' ≤ c ∧ c ≤ '9' then some (c.toNat - '0'.toNat)
  else if 'a' ≤ c ∧ c ≤ 'f' then some (c.toNat - 'a'.toNat + 10)
  else if 'A' ≤ c ∧ c ≤ 'F' then some (c.toNat - 'A'.toNat + 10)
  else none

/-- Body of a JSON string, after the opening quote; raw control
characters are rejected, escapes are decoded. -/
def parseStr (fuel : Nat) (acc : List Char) (cs : List Char) :
    Option (String × List Char) :=
  match fuel with
  | 0 => none
  | fuel + 1 =>
    match cs with
    | [] => none
    | c :: rest =>
      if c = '"' then some (⟨acc.reverse⟩, rest)
      else if c = '\\' then
        match rest with
        | [] => none
        | e :: rest2 =>
          if e = '"' then parseStr fuel ('"' :: acc) rest2
          else if e = '\\' then parseStr fuel ('\\' :: acc) rest2
          else if e = '/' then parseStr fuel ('/' :: acc) rest2
          else if e = 'b' then parseStr fuel (Char.ofNat 8 :: acc) rest2
          else if e = 'f' then parseStr fuel (Char.ofNat 12 :: acc) rest2
          else if e = 'n' then parseStr fuel ('\n' :: acc) rest2
          else if e = 'r' then parseStr fuel ('\r' :: acc) rest2
          else if e = 't' then parseStr fuel ('\t' :: acc) rest2
          else if e = 'u' then
            match rest2 with
            | h1 :: h2 :: h3 :: h4 :: rest3 =>
              match hexVal h1, hexVal h2, hexVal h3, hexVal h4 with
              | some a, some b, some c', some d =>
                parseStr fuel
                  (Char.ofNat (((a * 16 + b) * 16 + c') * 16 + d) :: acc) rest3
              | _, _, _, _ => none
            | _ => none
          else none
      else if c.toNat < 32 then none
      else parseStr fuel (c :: acc) rest

/-- Optional fraction part of a number literal. -/
def parseFrac (pre : List Char) (cs : List Char) :
    Option (List Char × List Char) :=
  match cs with
  | '.' :: rest =>
    let ds := rest.takeWhile isDigitCh
    if ds = [] then none else some (pre ++ '.' :: ds, rest.dropWhile isDigitCh)
  | _ => some (pre, cs)

/-- Optional exponent part of a number literal. -/
def parseExpPart (pre : List Char) (cs : List Char) :
    Option (List Char × List Char) :=
  match cs with
  | [] => some (pre, [])
  | e :: rest =>
    if e = 'e' ∨ e = 'E' then
      let sgn : List Char × List Char :=
        match rest with
        | '+' :: r => (['+'], r)
        | '-' :: r => (['-'], r)
        | _ => ([], rest)
      let ds := sgn.2.takeWhile isDigitCh
      if ds = [] then none
      else some (pre ++ e :: sgn.1 ++ ds, sgn.2.dropWhile isDigitCh)
    else some (pre, cs)

/-- A JSON number literal: `-? (0 | [1-9][0-9]*) frac? exp?`. -/
def parseNum (cs : List Char) : Option (String × List Char) :=
  let body : List Char × List Char :=
    match cs with
    | '-' :: rest => (['-'], rest)
    | _ => ([], cs)
  match body.2 with
  | [] => none
  | c :: tl =>
    if c = '0' then
      match parseFrac (body.1 ++ ['0']) tl with
      | none => none
      | some (p2, r2) =>
        match parseExpPart p2 r2 with
        | none => none
        | some (p3, r3) => some (⟨p3⟩, r3)
    else if isDigitCh c then
      let ds := body.2.takeWhile isDigitCh
      match parseFrac (body.1 ++ ds) (body.2.dropWhile isDigitCh) with
      | none => none
      | some (p2, r2) =>
        match parseExpPart p2 r2 with
        | none => none
        | some (p3, r3) => some (⟨p3⟩, r3)
    else none

mutual
/-- One JSON value, leading whitespace allowed. -/
def parseVal (fuel : Nat) (cs : List Char) : Option (Json × List Char) :=
  match fuel with
  | 0 => none
  | fuel + 1 =>
    match skipWs cs with
    | [] => none
    | c :: rest =>
      if c = 'n' then
        match rest with
        | 'u' :: 'l' :: 'l' :: r => some (.null, r)
        | _ => none
      else if c = 't' then
        match rest with
        | 'r' :: 'u' :: 'e' :: r => some (.bool true, r)
        | _ => none
      else if c = 'f' then
        match rest with
        | 'a' :: 'l' :: 's' :: 'e' :: r => some (.bool false, r)
        | _ => none
      else if c = '"' then
        match parseStr (rest.length + 1) [] rest with
        | some (s, r) => some (.str s, r)
        | none => none
      else if c = '[' then
        match skipWs rest with
        | ']' :: r2 => some (.arr [], r2)
        | _ => parseArrLoop fuel rest []
      else if c = '{' then
        match skipWs rest with
        | '}' :: r2 => some (.obj [], r2)
        | _ => parseObjLoop fuel rest []
      else if c = '-' || isDigitCh c then
        match parseNum (c :: rest) with
        | some (lit, r) => some (.num lit, r)
        | none => none
      else none

/-- Elements of a non-empty array, after `[` or `,`. -/
def parseArrLoop (fuel : Nat) (cs : List Char) (acc : List Json) :
    Option (Json × List Char) :=
  match fuel with
  | 0 => none
  | fuel + 1 =>
    match parseVal fuel cs with
    | none => none
    | some (v, r) =>
      match skipWs r with
      | ',' :: r2 => parseArrLoop fuel r2 (v :: acc)
      | ']' :: r2 => some (.arr (v :: acc).reverse, r2)
      | _ => none

/-- Members of a non-empty object, after `{` or `,`; duplicate keys
overwrite like JS property assignment. -/
def parseObjLoop (fuel : Nat) (cs : List Char) (acc : List (String × Json)) :
    Option (Json × List Char) :=
  match fuel with
  | 0 => none
  | fuel + 1 =>
    match skipWs cs with
    | '"' :: r =>
      match parseStr (r.length + 1) [] r with
      | none => none
      | some (k, r2) =>
        match skipWs r2 with
        | ':' :: r4 =>
          match parseVal fuel r4 with
          | none => none
          | some (v, r5) =>
            match skipWs r5 with
            | ',' :: r7 => parseObjLoop fuel r7 (setField acc k v)
            | '}' :: r7 => some (.obj (setField acc k v), r7)
            | _ => none
        | _ => none
    | _ => none
end

/-- `JSON.parse`: one value, then only trailing whitespace. -/
def jsonParse (s : String) : Option Json :=
  match parseVal (s.data.length + 1) s.data with
  | some (v, rest) => if skipWs rest = [] then some v else none
  | none => none

/-! #### `JSON.stringify` -/

def hexDigitCh (n : Nat) : Char :=
  if n < 10 then Char.ofNat ('0'.toNat + n) else Char.ofNat ('a'.toNat + n - 10)

def escapeChar (c : Char) : List Char :=
  if c = '"' then ['\\', '"']
  else if c = '\\' then ['\\', '\\']
  else if c = '\n' then ['\\', 'n']
  else if c = '\r' then ['\\', 'r']
  else if c = '\t' then ['\\', 't']
  else if c = Char.ofNat 8 then ['\\', 'b']
  else if c = Char.ofNat 12 then ['\\', 'f']
  else if c.toNat < 32 then
    ['\\', 'u', '0', '0', hexDigitCh (c.toNat / 16), hexDigitCh (c.toNat % 16)]
  else [c]

def renderStr (s : String) : String :=
  ⟨'"' :: (s.data.map escapeChar).flatten ++ ['"']⟩

mutual
def render : Json → String
  | .null => "null"
  | .bool true => "true"
  | .bool false => "false"
  | .num lit => lit
  | .str s => renderStr s
  | .arr es => "[" ++ renderElems es ++ "]"
  | .obj fs => "\x7b" ++ renderFields fs ++ "\x7d"

def renderElems : List Json → String
  | [] => ""
  | [e] => render e
  | e :: rest => render e ++ "," ++ renderElems rest

def renderFields : List (String × Json) → String
  | [] => ""
  | [(k, v)] => renderStr k ++ ":" ++ render v
  | (k, v) :: rest => renderStr k ++ ":" ++ render v ++ "," ++ renderFields rest
end

/-- JS falsiness of a JSON value (`action.args || {}`); the numeric case
is decided on the literal: zero iff every mantissa digit is `0`. -/
def numIsZero (lit : String) : Bool :=
  let cs := match lit.data with
    | '-' :: r => r
    | l => l
  (cs.takeWhile (fun c => !(c = 'e' || c = 'E'))).all fun c => c = '0' || c = '.'

def jsFalsy : Json → Bool
  | .null => true
  | .bool b => !b
  | .num lit => numIsZero lit
  | .str s => s == ""
  | .arr _ => false
  | .obj _ => false

/-! ### Model output parser (`normalizeModelOutput` / `parseModelOutput`) -/

/-- The backtick character. -/
def tick : Char := Char.ofNat 96

/-- A markdown code fence. -/
def fenceMarks : List Char := [tick, tick, tick]

/-- ASCII lowercasing (what the `i` regex flag compares with here). -/
def toLowerAscii (c : Char) : Char :=
  if 'A' ≤ c ∧ c ≤ 'Z' then Char.ofNat (c.toNat + 32) else c

/-- The `replace` with `/^```json/i`: when the text starts with a fence
followed directly by `json` in any case, the seven matched characters
are replaced by a bare fence; otherwise the text is unchanged. -/
def stripFenceJsonTag (cs : List Char) : List Char :=
  if fenceMarks.isPrefixOf cs ∧
      ((cs.drop 3).take 4).map toLowerAscii = ['j', 's', 'o', 'n']
  then fenceMarks ++ cs.drop 7
  else cs

/-- `text.slice(0, -3)` when the text ends in a closing fence. -/
def dropClosingFence (t1 : List Char) : List Char :=
  if fenceMarks.isSuffixOf t1 then t1.take (t1.length - 3) else t1

/-- `normalizeModelOutput` from `agent.js`: trim; if the text starts with
a fence, drop an optional `json` tag, the opening fence, a closing fence
when present, and trim again. -/
def normalizeModelOutput (content : String) : String :=
  if fenceMarks.isPrefixOf (trimChars content.data) then
    ⟨trimChars (dropClosingFence
      ((stripFenceJsonTag (trimChars content.data)).drop 3))⟩
  else ⟨trimChars content.data⟩

/-- The decoded intent of one model turn. -/
inductive Action where
  | tool (name : String) (args : Json)
  | final (content : String)
  deriving DecidableEq, Repr

/-- `parseModelOutput` from `agent.js`. -/
def parseModelOutput (content : String) : Except Err Action :=
  match jsonParse (normalizeModelOutput content) with
  | none => .error (.malformedOutput "Invalid model output format (expected JSON).")
  | some (.obj fields) =>
    if lookupField fields "type" = some (.str "tool") then
      match lookupField fields "name" with
      | some (.str n) =>
        if trimChars n.data = [] then
          .error (.malformedOutput "Tool call missing name.")
        else
          match lookupField fields "args" with
          | none => .ok (.tool n (.obj []))
          | some .null => .ok (.tool n (.obj []))
          | some a => .ok (.tool n a)
      | _ => .error (.malformedOutput "Tool call missing name.")
    else if lookupField fields "type" = some (.str "final") then
      match lookupField fields "content" with
      | some (.str c) => .ok (.final c)
      | _ => .error (.malformedOutput "Final response missing content.")
    else .error (.malformedOutput "Invalid model output format (unknown type).")
  | some _ =>
    .error (.malformedOutput "Invalid model output format (expected JSON object).")

/-! ### Tool layer (`src/tools/index.js`)

The sandbox filesystem is an explicit state: whether the root has been
created, the set of directories under the root (closed under parents,
since directories only appear via `mkdir recursive`), and a map from
relative paths to file contents.  `runTool` additionally reports the
trace of filesystem operations it performed, in order. -/

structure ToolDefinition where
  name : String
  description : String
  schema : Json
  deriving DecidableEq, Repr

def TOOL_DEFINITIONS : List ToolDefinition := [
  ⟨"list_files", "List top-level files in sandbox-lite.",
    .obj [("type", .str "object"), ("properties", .obj []),
      ("additionalProperties", .bool false)]⟩,
  ⟨"read_file", "Read a file under sandbox-lite. Provide a relative filePath.",
    .obj [("type", .str "object"),
      ("properties", .obj [("filePath", .obj [("type", .str "string")])]),
      ("required", .arr [.str "filePath"]),
      ("additionalProperties", .bool false)]⟩,
  ⟨"write_file", "Write a file under sandbox-lite. Provide relative filePath and content.",
    .obj [("type", .str "object"),
      ("properties", .obj [("filePath", .obj [("type", .str "string")]),
        ("content", .obj [("type", .str "string")])]),
      ("required", .arr [.str "filePath", .str "content"]),
      ("additionalProperties", .bool false)]⟩]

/-- `assertNonEmptyString(value, field)` on a JSON field value
(`undefined` is `none`). -/
def assertNonEmptyString (v : Option Json) (field : String) : Except Err Unit :=
  match v with
  | some (.str s) =>
    if trimChars s.data = [] then
      .error (.invalidArgs (field ++ " must be a non-empty string."))
    else .ok ()
  | _ => .error (.invalidArgs (field ++ " must be a non-empty string."))

/-- `validateArgs(name, args)` from `src/tools/index.js`. -/
def validateArgs (name : String) (args : Json) : Except Err Unit :=
  match args with
  | .obj fields =>
    if name = "list_files" then
      match fields with
      | [] => .ok ()
      | _ => .error (.invalidArgs "list_files does not accept arguments.")
    else if name = "read_file" then
      assertNonEmptyString (lookupField fields "filePath") "filePath"
    else if name = "write_file" then
      match assertNonEmptyString (lookupField fields "filePath") "filePath" with
      | .error e => .error e
      | .ok () => assertNonEmptyString (lookupField fields "content") "content"
    else .ok ()
  | _ => .error (.invalidArgs "args must be an object.")

/-- Sandbox filesystem state (paths relative to the sandbox root, in
segments). -/
structure Fs where
  rootExists : Bool
  dirs : List (List Seg)
  files : List (List Seg × String)
  deriving DecidableEq, Repr

/-- The freshly-created (or not yet created) empty sandbox. -/
def Fs.empty : Fs := ⟨false, [], []⟩

/-- One observable filesystem operation of the tool layer. -/
inductive FsOp where
  /-- `fs.mkdir(SANDBOX_DIR, recursive)` from `ensureSandbox`. -/
  | mkdirRoot
  /-- `fs.readdir(SANDBOX_DIR)`. -/
  | readdirRoot
  /-- `fs.readFile(target)`. -/
  | fileRead (rel : List Seg)
  /-- `fs.mkdir(path.dirname(target), recursive)`. -/
  | dirsMake (rel : List Seg)
  /-- `fs.writeFile(target, content)`. -/
  | fileWrite (rel : List Seg) (content : String)
  deriving DecidableEq, Repr

/-- All nonempty prefixes of a relative path: the directories
`mkdir recursive` creates. -/
def relPrefixes (p : List Seg) : List (List Seg) :=
  (List.range p.length).map fun n => p.take (n + 1)

def isFileAt (fs : Fs) (p : List Seg) : Bool := fs.files.any fun f => f.1 == p

def lookupFile (fs : Fs) (p : List Seg) : Option String :=
  match fs.files.find? (fun f => f.1 == p) with
  | some f => some f.2
  | none => none

def setFileFs (files : List (List Seg × String)) (p : List Seg) (c : String) :
    List (List Seg × String) :=
  match files with
  | [] => [(p, c)]
  | (q, d) :: rest =>
    if q == p then (p, c) :: rest else (q, d) :: setFileFs rest p c

/-- Filesystem error kinds: 0 = ENOENT, 1 = ENOTDIR, 2 = EISDIR. -/
def ENOENT : Nat := 0
def ENOTDIR : Nat := 1
def EISDIR : Nat := 2

/-- `fs.mkdir(…, recursive)`: create all missing ancestors; fails if a
file occupies one of them. -/
def mkdirp (fs : Fs) (p : List Seg) : Except Err Fs :=
  if (relPrefixes p).any (fun q => isFileAt fs q) then .error (.fsFailure ENOTDIR)
  else .ok { fs with
    dirs := fs.dirs ++ (relPrefixes p).filter (fun q => ¬ fs.dirs.contains q) }

/-- `fs.readFile` at a resolved relative path. -/
def readFs (fs : Fs) (p : List Seg) : Except Err String :=
  if p = [] then .error (.fsFailure EISDIR)
  else match lookupFile fs p with
  | some c => .ok c
  | none =>
    if fs.dirs.contains p then .error (.fsFailure EISDIR)
    else .error (.fsFailure ENOENT)

/-- `fs.writeFile` at a resolved relative path (overwrites). -/
def writeFs (fs : Fs) (p : List Seg) (c : String) : Except Err Fs :=
  if p = [] ∨ fs.dirs.contains p then .error (.fsFailure EISDIR)
  else .ok { fs with files := setFileFs fs.files p c }

/-- The top-level entry names of the sandbox root (directories and
files whose relative path has exactly one segment). -/
def topEntries (fs : Fs) : List Seg :=
  dedupFirst
    ((fs.dirs.filterMap fun d => match d with | [x] => some x | _ => none) ++
     (fs.files.filterMap fun f => match f.1 with | [x] => some x | _ => none))

/-- String value of a validated string field (defined once validation
passed). -/
def argStr (args : Json) (k : String) : String :=
  match args with
  | .obj fields =>
    match lookupField fields k with
    | some (.str s) => s
    | _ => ""
  | _ => ""

/-- Result of one `runTool` call: trace of filesystem operations, final
filesystem, and result or thrown error. -/
structure ToolOut where
  ops : List FsOp
  fs : Fs
  result : Except Err String
  deriving DecidableEq, Repr

/-- `runTool(name, args)` from `src/tools/index.js`, over the sandbox
rooted at `segsToPath rootSegs`. -/
def runTool (rootSegs : List Seg) (fs : Fs) (name : String) (args : Json) :
    ToolOut :=
  if ¬ (name = "list_files" ∨ name = "read_file" ∨ name = "write_file") then
    ⟨[], fs, .error (.unknownTool name)⟩
  else
    match validateArgs name args with
    | .error e => ⟨[], fs, .error e⟩
    | .ok () =>
      let fs1 : Fs := { fs with rootExists := true }
      if name = "list_files" then
        let entries := topEntries fs1
        ⟨[.mkdirRoot, .readdirRoot], fs1,
          .ok (if entries = [] then "(empty)" else ⟨joinSep '\n' entries⟩)⟩
      else
        let fp := argStr args "filePath"
        match resolveSandboxPath (segsToPath rootSegs) fp.data with
        | .error e => ⟨[.mkdirRoot], fs1, .error e⟩
        | .ok _target =>
          let rel := (resolvedSegs (segsToPath rootSegs) fp.data).drop rootSegs.length
          if name = "read_file" then
            match readFs fs1 rel with
            | .ok c => ⟨[.mkdirRoot, .fileRead rel], fs1, .ok c⟩
            | .error e => ⟨[.mkdirRoot, .fileRead rel], fs1, .error e⟩
          else
            let content := argStr args "content"
            match mkdirp fs1 rel.dropLast with
            | .error e => ⟨[.mkdirRoot, .dirsMake rel.dropLast], fs1, .error e⟩
            | .ok fs2 =>
              match writeFs fs2 rel content with
              | .error e =>
                ⟨[.mkdirRoot, .dirsMake rel.dropLast, .fileWrite rel content],
                  fs2, .error e⟩
              | .ok fs3 =>
                ⟨[.mkdirRoot, .dirsMake rel.dropLast, .fileWrite rel content],
                  fs3, .ok ("Wrote " ++ fp)⟩

/-! ### Agent loop (`runLiteAgent` from `agent.js`) -/

structure Message where
  role : String
  content : String
  deriving DecidableEq, Repr

inductive Step where
  | tool (name : String) (args : Json) (result : String)
  | final (content : String)
  deriving DecidableEq, Repr

structure RunOutput where
  output : String
  steps : Option (List Step)
  deriving DecidableEq, Repr

/-- Observable state of one invocation: the message sequence, the step
trace, the sandbox filesystem, and how many model calls and tool
executions have happened. -/
structure RunState where
  messages : List Message
  steps : List Step
  fs : Fs
  modelCalls : Nat
  toolCalls : Nat
  deriving DecidableEq, Repr

structure RunOutcome where
  state : RunState
  result : Except Err RunOutput
  deriving DecidableEq, Repr

/-- The LLM client adapter: one completion (or a failure) from an
ordered message sequence. -/
def Llm : Type := List Message → Except Err String

def joinStrings (sep : String) : List String → String
  | [] => ""
  | [s] => s
  | s :: rest => s ++ sep ++ joinStrings sep rest

def toolLine (t : ToolDefinition) : String :=
  "- " ++ t.name ++ ": " ++ t.description ++ "\n  schema: " ++ render t.schema

/-- `buildSystemPrompt(tools)` from `agent.js`. -/
def buildSystemPrompt (tools : List ToolDefinition) : String :=
  joinStrings "\n" [
    "You are a tool-using agent.",
    "You must respond with valid JSON only.",
    "Use exactly one of the following JSON shapes:",
    "\x7b \"type\": \"tool\", \"name\": \"tool_name\", \"args\": \x7b ... \x7d \x7d",
    "\x7b \"type\": \"final\", \"content\": \"your answer\" \x7d",
    "If a tool is needed, respond with type=tool.",
    "When you are done, respond with type=final.",
    "Do not wrap JSON in markdown fences.",
    "Available tools:",
    joinStrings "\n" (tools.map toolLine)]

/-- `JSON.stringify({type: "observation", name, result})`. -/
def observationText (name result : String) : String :=
  render (.obj [("type", .str "observation"), ("name", .str name),
    ("result", .str result)])

/-- The `for` loop body of `runLiteAgent`, with the remaining iteration
budget as fuel.  Note the source parses the completion *before* pushing
the assistant message. -/
def runLoop (llm : Llm) (rootSegs : List Seg) (includeSteps : Bool) :
    Nat → RunState → RunOutcome
  | 0, st => ⟨st, .error .maxIterations⟩
  | fuel + 1, st =>
    match llm st.messages with
    | .error e => ⟨{ st with modelCalls := st.modelCalls + 1 }, .error e⟩
    | .ok content =>
      let st1 : RunState := { st with modelCalls := st.modelCalls + 1 }
      match parseModelOutput content with
      | .error e => ⟨st1, .error e⟩
      | .ok action =>
        let st2 : RunState :=
          { st1 with messages := st1.messages ++ [⟨"assistant", content⟩] }
        match action with
        | .final c =>
          let st3 : RunState := { st2 with steps := st2.steps ++ [.final c] }
          ⟨st3, .ok ⟨c, if includeSteps then some st3.steps else none⟩⟩
        | .tool name args =>
          let argsD := if jsFalsy args then .obj [] else args
          let out := runTool rootSegs st2.fs name argsD
          let st3 : RunState :=
            { st2 with toolCalls := st2.toolCalls + 1, fs := out.fs }
          match out.result with
          | .error e => ⟨st3, .error e⟩
          | .ok r =>
            runLoop llm rootSegs includeSteps fuel
              { st3 with
                steps := st3.steps ++ [.tool name argsD r],
                messages := st3.messages ++ [⟨"user", observationText name r⟩] }

/-- The relevant environment variables. -/
structure Env where
  apiKey : Option String
  liteModel : Option String
  model : Option String
  deriving DecidableEq, Repr

/-- JS falsiness of `process.env.X` (unset or empty). -/
def strFalsy : Option String → Bool
  | none => true
  | some s => s == ""

/-- `a || b` on environment strings. -/
def jsOrStr (a b : Option String) : Option String :=
  if strFalsy a then b else a

/-- `runLiteAgent({input, includeSteps, maxIterations})` from `agent.js`,
parameterized by the environment, the LLM client adapter, the sandbox
root and the initial sandbox filesystem. -/
def runLiteAgent (env : Env) (llm : Llm) (rootSegs : List Seg) (fs0 : Fs)
    (input : String) (includeSteps : Bool) (maxIterations : Int) : RunOutcome :=
  if trimChars input.data = [] then ⟨⟨[], [], fs0, 0, 0⟩, .error .invalidInput⟩
  else if strFalsy env.apiKey then ⟨⟨[], [], fs0, 0, 0⟩, .error .missingApiKey⟩
  else if strFalsy (jsOrStr env.liteModel env.model) then
    ⟨⟨[], [], fs0, 0, 0⟩, .error .missingModel⟩
  else
    runLoop llm rootSegs includeSteps maxIterations.toNat
      ⟨[⟨"system", buildSystemPrompt TOOL_DEFINITIONS⟩, ⟨"user", input⟩],
        [], fs0, 0, 0⟩

/-! ### Parser totality and fence tolerance (Claim C3) -/

/-- A body wrapped in a fenced code block, with a language tag on the
opening fence (empty tag = no tag). -/
def wrapFence (tag body : String) : String :=
  ⟨fenceMarks ++ (tag.data ++ ('\n' :: (body.data ++ ('\n' :: fenceMarks))))⟩

/-- The parser's defaulting of `args`: absent or `null` becomes the
empty object, anything else passes through. -/
def defaultedArgs (fields : List (String × Json)) : Json :=
  match lookupField fields "args" with
  | none => .obj []
  | some .null => .obj []
  | some a => a

theorem dropTrail_ws (w : Char) (hw : isJsWs w = true) (cs : List Char) :
    dropTrail isJsWs (cs ++ [w]) = dropTrail isJsWs cs := by
  unfold dropTrail
  rw [List.reverse_append]
  simp [List.dropWhile_cons, hw]

theorem trimChars_cons_ws (w : Char) (hw : isJsWs w = true) (cs : List Char) :
    trimChars (w :: cs) = trimChars cs := by
  unfold trimChars
  rw [List.dropWhile_cons, if_pos hw]

theorem trimChars_append_ws (w : Char) (hw : isJsWs w = true) :
    ∀ cs : List Char, trimChars (cs ++ [w]) = trimChars cs := by
  intro cs
  induction cs with
  | nil => simp [trimChars, List.dropWhile_cons, hw, dropTrail]
  | cons c cs' ih =>
    by_cases hc : isJsWs c = true
    · rw [List.cons_append, trimChars_cons_ws c hc, trimChars_cons_ws c hc, ih]
    · have hc' : isJsWs c = false := by
        cases h : isJsWs c
        · rfl
        · exact absurd h hc
      unfold trimChars
      rw [List.cons_append,
        List.dropWhile_cons_of_neg (by simp [hc']),
        List.dropWhile_cons_of_neg (by simp [hc'])]
      exact dropTrail_ws w hw (c :: cs')

theorem trimChars_of_ends (a b : Char) (mid : List Char)
    (ha : isJsWs a = false) (hb : isJsWs b = false) :
    trimChars ((a :: mid) ++ [b]) = (a :: mid) ++ [b] := by
  unfold trimChars
  have h1 : List.dropWhile isJsWs ((a :: mid) ++ [b]) = (a :: mid) ++ [b] := by
    rw [List.cons_append]
    exact List.dropWhile_cons_of_neg (by simp [ha])
  rw [h1]
  unfold dropTrail
  rw [show ((a :: mid) ++ [b]).reverse = b :: (a :: mid).reverse by simp,
    List.dropWhile_cons_of_neg (by simp [hb])]
  simp

theorem isJsWs_tick : isJsWs tick = false := by decide

theorem isJsWs_nl : isJsWs '\n' = true := by decide

/-- Normalization of a fenced block whose tag is empty or a cased
variant of `json`: the fences disappear and the body is trimmed. -/
theorem normalize_wrapFence (tag body : String)
    (htag : tag = "" ∨ tag.data.map toLowerAscii = "json".data) :
    normalizeModelOutput (wrapFence tag body) = ⟨trimChars body.data⟩ := by
  have hdata : (wrapFence tag body).data
      = fenceMarks ++ (tag.data ++ ('\n' :: (body.data ++
        ('\n' :: fenceMarks)))) := rfl
  have htrim : trimChars (wrapFence tag body).data
      = (wrapFence tag body).data := by
    have hshape : (wrapFence tag body).data
        = (tick :: (tick :: tick :: (tag.data ++ ('\n' :: (body.data ++
            ['\n', tick, tick]))))) ++ [tick] := by
      rw [hdata]
      simp [fenceMarks]
    rw [hshape]
    exact trimChars_of_ends tick tick _ isJsWs_tick isJsWs_tick
  have hpreW : fenceMarks.isPrefixOf (wrapFence tag body).data = true := by
    apply List.isPrefixOf_iff_prefix.mpr
    rw [hdata]
    exact List.prefix_append _ _
  have hpre : fenceMarks.isPrefixOf (trimChars (wrapFence tag body).data)
      = true := by
    rw [htrim]
    exact hpreW
  have hstrip3 : (stripFenceJsonTag (wrapFence tag body).data).drop 3
      = '\n' :: (body.data ++ ('\n' :: fenceMarks)) := by
    have hd3 : (wrapFence tag body).data.drop 3
        = tag.data ++ ('\n' :: (body.data ++ ('\n' :: fenceMarks))) := by
      rw [hdata]
      exact List.drop_left' (by simp [fenceMarks])
    rcases htag with htag | htag
    · have htagnil : tag.data = [] := by
        rw [htag]
      have hneg : ¬ (fenceMarks.isPrefixOf (wrapFence tag body).data = true ∧
          (((wrapFence tag body).data.drop 3).take 4).map toLowerAscii
            = ['j', 's', 'o', 'n']) := by
        rintro ⟨-, habs⟩
        rw [hd3, htagnil, List.nil_append, List.take_succ_cons,
          List.map_cons] at habs
        have hj : toLowerAscii '\n' = 'j' := by
          simpa using congrArg List.head? habs
        exact absurd hj (by decide)
      unfold stripFenceJsonTag
      rw [if_neg hneg, hd3, htagnil, List.nil_append]
    · have hlen4 : tag.data.length = 4 := by
        simpa using congrArg List.length htag
      have htake4 : (((wrapFence tag body).data.drop 3).take 4).map toLowerAscii
          = ['j', 's', 'o', 'n'] := by
        rw [hd3, List.take_left' hlen4, htag]
      unfold stripFenceJsonTag
      rw [if_pos ⟨hpreW, htake4⟩]
      have hd7 : (wrapFence tag body).data.drop 7
          = '\n' :: (body.data ++ ('\n' :: fenceMarks)) := by
        have hre : (wrapFence tag body).data = (fenceMarks ++ tag.data) ++
            ('\n' :: (body.data ++ ('\n' :: fenceMarks))) := by
          rw [hdata]
          simp
        rw [hre]
        exact List.drop_left' (by simp [fenceMarks, hlen4])
      rw [hd7]
      exact List.drop_left' (by simp [fenceMarks])
  have hclose : dropClosingFence ('\n' :: (body.data ++ ('\n' :: fenceMarks)))
      = '\n' :: (body.data ++ ['\n']) := by
    have hre : '\n' :: (body.data ++ ('\n' :: fenceMarks))
        = ('\n' :: (body.data ++ ['\n'])) ++ fenceMarks := by
      simp
    unfold dropClosingFence
    rw [hre, if_pos (List.isSuffixOf_iff_suffix.mpr (List.suffix_append _ _))]
    have hlen : (('\n' :: (body.data ++ ['\n'])) ++ fenceMarks).length - 3
        = ('\n' :: (body.data ++ ['\n'])).length := by
      simp [fenceMarks]
    rw [hlen]
    exact List.take_left _ _
  unfold normalizeModelOutput
  rw [if_pos hpre, htrim, hstrip3, hclose,
    trimChars_cons_ws '\n' isJsWs_nl, trimChars_append_ws '\n' isJsWs_nl]

/-- A text that does not begin with a fence after trimming is only
trimmed by normalization. -/
theorem normalize_noFence (body : String)
    (h : fenceMarks.isPrefixOf (trimChars body.data) = false) :
    normalizeModelOutput body = ⟨trimChars body.data⟩ := by
  unfold normalizeModelOutput
  rw [if_neg]
  simp [h]

/-- Texts with the same normalization parse identically. -/
theorem parseModelOutput_congr (a b : String)
    (h : normalizeModelOutput a = normalizeModelOutput b) :
    parseModelOutput a = parseModelOutput b := by
  unfold parseModelOutput
  rw [h]

/-- Claim C3 counterexample: a well-formed final action wrapped in a
fenced block with language tag `js` is rejected, although unfenced (or
`json`-tagged) it parses; so not every language tag is tolerated. -/
theorem c3_counterexample :
    parseModelOutput (wrapFence "js" "\x7b\"type\":\"final\",\"content\":\"ok\"\x7d")
      = .error (.malformedOutput "Invalid model output format (expected JSON).") ∧
    parseModelOutput "\x7b\"type\":\"final\",\"content\":\"ok\"\x7d"
      = .ok (.final "ok") := by
  decide

/-- Claim C3 (amended): `parse` is total with exactly two outcomes;
non-JSON input, JSON non-objects, and objects with an unrecognized
`type` fail with `MalformedOutputError`; well-formed tool/final objects
succeed with fields preserved (absent or null `args` defaulting to the
empty object); and wrapping in a fenced code block is tolerated when the
opening fence carries no language tag or (any casing of) the tag `json`
— not an arbitrary language tag. -/
theorem c3_parser_totality (s body tag : String) :
    (jsonParse (normalizeModelOutput s) = none →
      parseModelOutput s = .error (.malformedOutput
        "Invalid model output format (expected JSON).")) ∧
    (∀ v, jsonParse (normalizeModelOutput s) = some v →
      (∀ fields, v ≠ .obj fields) →
      parseModelOutput s = .error (.malformedOutput
        "Invalid model output format (expected JSON object).")) ∧
    (∀ fields, jsonParse (normalizeModelOutput s) = some (.obj fields) →
      lookupField fields "type" ≠ some (.str "tool") →
      lookupField fields "type" ≠ some (.str "final") →
      parseModelOutput s = .error (.malformedOutput
        "Invalid model output format (unknown type).")) ∧
    (∀ fields n, jsonParse (normalizeModelOutput s) = some (.obj fields) →
      lookupField fields "type" = some (.str "tool") →
      lookupField fields "name" = some (.str n) →
      trimChars n.data ≠ [] →
      parseModelOutput s = .ok (.tool n (defaultedArgs fields))) ∧
    (∀ fields c, jsonParse (normalizeModelOutput s) = some (.obj fields) →
      lookupField fields "type" = some (.str "final") →
      lookupField fields "content" = some (.str c) →
      parseModelOutput s = .ok (.final c)) ∧
    ((tag = "" ∨ tag.data.map toLowerAscii = "json".data) →
      fenceMarks.isPrefixOf (trimChars body.data) = false →
      parseModelOutput (wrapFence tag body) = parseModelOutput body) := by
  refine ⟨?_, ?_, ?_, ?_, ?_, ?_⟩
  · intro h
    unfold parseModelOutput
    rw [h]
  · intro v hv hno
    unfold parseModelOutput
    rw [hv]
    cases v with
    | obj fields => exact absurd rfl (hno fields)
    | null => rfl
    | bool b => rfl
    | num lit => rfl
    | str s' => rfl
    | arr es => rfl
  · intro fields hf ht1 ht2
    unfold parseModelOutput
    rw [hf]
    try dsimp only
    rw [if_neg ht1, if_neg ht2]
  · intro fields n hf ht hn hne
    unfold parseModelOutput
    rw [hf]
    try dsimp only
    rw [if_pos ht, hn]
    try dsimp only
    rw [if_neg hne]
    unfold defaultedArgs
    cases lookupField fields "args" with
    | none => rfl
    | some a => cases a <;> rfl
  · intro fields c hf ht hc
    unfold parseModelOutput
    have hne : lookupField fields "type" ≠ some (.str "tool") := by
      rw [ht]
      intro habs
      simp at habs
    rw [hf]
    try dsimp only
    rw [if_neg hne, if_pos ht, hc]
  · intro htag hb
    exact parseModelOutput_congr _ _
      ((normalize_wrapFence tag body htag).trans (normalize_noFence body hb).symm)

/-- Witness for C3: the final-action object parses, and wrapping it in a
`JSON`-tagged fence does not change the result. -/
theorem c3_parser_totality_witness :
    parseModelOutput "\x7b\"type\":\"final\",\"content\":\"ok\"\x7d"
      = .ok (.final "ok") ∧
    parseModelOutput (wrapFence "JSON" "\x7b\"type\":\"final\",\"content\":\"ok\"\x7d")
      = parseModelOutput "\x7b\"type\":\"final\",\"content\":\"ok\"\x7d" := by
  constructor
  · exact (c3_parser_totality "\x7b\"type\":\"final\",\"content\":\"ok\"\x7d"
      "" "").2.2.2.2.1 [("type", .str "final"), ("content", .str "ok")] "ok"
      (by decide) (by decide) (by decide)
  · exact (c3_parser_totality ""
      "\x7b\"type\":\"final\",\"content\":\"ok\"\x7d" "JSON").2.2.2.2.2
      (Or.inr (by decide)) (by decide)

/-! ### Loop claims (C2, C4, C5, C10) -/

/-- The model text the spec's looping scenario emits forever. -/
def alwaysListFilesText : String :=
  "\x7b\"type\":\"tool\",\"name\":\"list_files\",\"args\":\x7b\x7d\x7d"

theorem parse_alwaysListFiles :
    parseModelOutput alwaysListFilesText = .ok (.tool "list_files" (.obj [])) := by
  decide

theorem runTool_listFiles (rootSegs : List Seg) (fs : Fs) :
    runTool rootSegs fs "list_files" (.obj []) =
      ⟨[.mkdirRoot, .readdirRoot], { fs with rootExists := true },
        .ok (if topEntries { fs with rootExists := true } = [] then "(empty)"
          else ⟨joinSep '\n' (topEntries { fs with rootExists := true })⟩)⟩ := rfl

theorem runLoop_modelCalls_le (llm : Llm) (rootSegs : List Seg) (incl : Bool) :
    ∀ fuel st, (runLoop llm rootSegs incl fuel st).state.modelCalls
      ≤ st.modelCalls + fuel := by
  intro fuel
  induction fuel with
  | zero =>
    intro st
    simp [runLoop]
  | succ n ih =>
    intro st
    simp only [runLoop]
    cases hm : llm st.messages with
    | error e =>
      try dsimp only
      omega
    | ok content =>
      try dsimp only
      cases hp : parseModelOutput content with
      | error e =>
        try dsimp only
        omega
      | ok action =>
        try dsimp only
        cases action with
        | final c =>
          try dsimp only
          omega
        | tool name args =>
          try dsimp only
          cases hr : (runTool rootSegs st.fs name
              (if jsFalsy args then .obj [] else args)).result with
          | error e =>
            simp only [hr]
            try dsimp only
            omega
          | ok r =>
            simp only [hr]
            refine le_trans (ih _) ?_
            try dsimp only
            omega

theorem runLoop_messages_mono (llm : Llm) (rootSegs : List Seg) (incl : Bool) :
    ∀ fuel st, st.messages
      <+: (runLoop llm rootSegs incl fuel st).state.messages := by
  intro fuel
  induction fuel with
  | zero =>
    intro st
    simp [runLoop]
  | succ n ih =>
    intro st
    simp only [runLoop]
    cases hm : llm st.messages with
    | error e => exact List.prefix_refl _
    | ok content =>
      try dsimp only
      cases hp : parseModelOutput content with
      | error e => exact List.prefix_refl _
      | ok action =>
        try dsimp only
        cases action with
        | final c => exact List.prefix_append _ _
        | tool name args =>
          try dsimp only
          cases hr : (runTool rootSegs st.fs name
              (if jsFalsy args then .obj [] else args)).result with
          | error e =>
            simp only [hr]
            exact List.prefix_append _ _
          | ok r =>
            simp only [hr]
            refine List.IsPrefix.trans ?_ (ih _)
            try dsimp only
            rw [List.append_assoc]
            exact List.prefix_append _ _

theorem runLoop_alwaysTool (rootSegs : List Seg) (incl : Bool) (llm : Llm)
    (hllm : ∀ msgs, llm msgs = .ok alwaysListFilesText) :
    ∀ fuel st,
      (runLoop llm rootSegs incl fuel st).result = .error .maxIterations ∧
      (runLoop llm rootSegs incl fuel st).state.modelCalls
        = st.modelCalls + fuel := by
  intro fuel
  induction fuel with
  | zero =>
    intro st
    simp [runLoop]
  | succ n ih =>
    intro st
    simp only [runLoop, hllm st.messages, parse_alwaysListFiles]
    try dsimp only
    rw [show (if jsFalsy (Json.obj []) then Json.obj [] else Json.obj [])
      = Json.obj [] from rfl, runTool_listFiles]
    try dsimp only
    refine ⟨(ih _).1, ?_⟩
    rw [(ih _).2]
    try dsimp only
    omega

/-- Unfolding of `runLiteAgent` under valid input and configuration. -/
theorem runLiteAgent_valid (env : Env) (llm : Llm) (rootSegs : List Seg)
    (fs0 : Fs) (input : String) (incl : Bool) (m : Int)
    (hin : trimChars input.data ≠ [])
    (hkey : strFalsy env.apiKey = false)
    (hmod : strFalsy (jsOrStr env.liteModel env.model) = false) :
    runLiteAgent env llm rootSegs fs0 input incl m =
      runLoop llm rootSegs incl m.toNat
        ⟨[⟨"system", buildSystemPrompt TOOL_DEFINITIONS⟩, ⟨"user", input⟩],
          [], fs0, 0, 0⟩ := by
  unfold runLiteAgent
  rw [if_neg hin, if_neg (by simp [hkey]), if_neg (by simp [hmod])]

/-- Claim C2: with valid input and configuration the loop makes at most
`maxIterations` model calls (the cap clamped at zero) and always ends in
a result or a fatal error; a model that emits a `list_files` tool action
on every turn makes the invocation fail with `MaxIterationsExceeded`
after exactly `maxIterations` model calls. -/
theorem c2_iteration_cap (env : Env) (llm : Llm) (rootSegs : List Seg)
    (fs0 : Fs) (input : String) (incl : Bool) (m : Int)
    (hin : trimChars input.data ≠ [])
    (hkey : strFalsy env.apiKey = false)
    (hmod : strFalsy (jsOrStr env.liteModel env.model) = false) :
    (runLiteAgent env llm rootSegs fs0 input incl m).state.modelCalls
      ≤ m.toNat ∧
    ((∀ msgs, llm msgs = .ok alwaysListFilesText) →
      (runLiteAgent env llm rootSegs fs0 input incl m).result
        = .error .maxIterations ∧
      (runLiteAgent env llm rootSegs fs0 input incl m).state.modelCalls
        = m.toNat) := by
  rw [runLiteAgent_valid env llm rootSegs fs0 input incl m hin hkey hmod]
  constructor
  · simpa using runLoop_modelCalls_le llm rootSegs incl m.toNat
      ⟨[⟨"system", buildSystemPrompt TOOL_DEFINITIONS⟩, ⟨"user", input⟩],
        [], fs0, 0, 0⟩
  · intro hl
    have h := runLoop_alwaysTool rootSegs incl llm hl m.toNat
      ⟨[⟨"system", buildSystemPrompt TOOL_DEFINITIONS⟩, ⟨"user", input⟩],
        [], fs0, 0, 0⟩
    simpa using h

/-- Witness for C2 at cap 4 with the always-`list_files` model. -/
theorem c2_iteration_cap_witness :
    (runLiteAgent ⟨some "k", none, some "m"⟩ (fun _ => .ok alwaysListFilesText)
        [ "sandbox-lite".data ] Fs.empty "hi" false 4).result
      = .error .maxIterations ∧
    (runLiteAgent ⟨some "k", none, some "m"⟩ (fun _ => .ok alwaysListFilesText)
        [ "sandbox-lite".data ] Fs.empty "hi" false 4).state.modelCalls = 4 := by
  have h := (c2_iteration_cap ⟨some "k", none, some "m"⟩
    (fun _ => .ok alwaysListFilesText) [ "sandbox-lite".data ] Fs.empty
    "hi" false 4 (by decide) (by decide) (by decide)).2 (fun _ => rfl)
  exact h

/-- Claim C10: a non-positive `maxIterations` makes `runLiteAgent` (with
valid input and configuration) fail immediately with
`MaxIterationsExceeded`: zero model calls, zero tool executions, only
the seeded messages. -/
theorem c10_nonpositive_cap (env : Env) (llm : Llm) (rootSegs : List Seg)
    (fs0 : Fs) (input : String) (incl : Bool) (m : Int)
    (hin : trimChars input.data ≠ [])
    (hkey : strFalsy env.apiKey = false)
    (hmod : strFalsy (jsOrStr env.liteModel env.model) = false)
    (hm : m ≤ 0) :
    runLiteAgent env llm rootSegs fs0 input incl m =
      ⟨⟨[⟨"system", buildSystemPrompt TOOL_DEFINITIONS⟩, ⟨"user", input⟩],
        [], fs0, 0, 0⟩, .error .maxIterations⟩ := by
  rw [runLiteAgent_valid env llm rootSegs fs0 input incl m hin hkey hmod,
    Int.toNat_eq_zero.mpr hm]
  rfl

/-- Witness for C10 at `maxIterations = -3`. -/
theorem c10_nonpositive_cap_witness :
    runLiteAgent ⟨some "k", none, some "m"⟩ (fun _ => .ok alwaysListFilesText)
        [ "sandbox-lite".data ] Fs.empty "hi" false (-3) =
      ⟨⟨[⟨"system", buildSystemPrompt TOOL_DEFINITIONS⟩, ⟨"user", "hi"⟩],
        [], Fs.empty, 0, 0⟩, .error .maxIterations⟩ :=
  c10_nonpositive_cap ⟨some "k", none, some "m"⟩
    (fun _ => .ok alwaysListFilesText) [ "sandbox-lite".data ] Fs.empty
    "hi" false (-3) (by decide) (by decide) (by decide) (by decide)

/-- Claim C5: when the tool invocation of an iteration fails, the error
fails the whole invocation: no step is recorded, no observation message
is appended (the sequence ends at the assistant message), the filesystem
keeps whatever the failed call left, and no further model calls happen —
the iteration's outcome is exactly the propagated error. -/
theorem c5_tool_failure_fatal (llm : Llm) (rootSegs : List Seg) (incl : Bool)
    (fuel : Nat) (st : RunState) (content name : String) (args : Json)
    (ops : List FsOp) (fs' : Fs) (e : Err)
    (hllm : llm st.messages = .ok content)
    (hparse : parseModelOutput content = .ok (.tool name args))
    (htool : runTool rootSegs st.fs name
      (if jsFalsy args then .obj [] else args) = ⟨ops, fs', .error e⟩) :
    runLoop llm rootSegs incl (fuel + 1) st =
      ⟨⟨st.messages ++ [⟨"assistant", content⟩], st.steps, fs',
        st.modelCalls + 1, st.toolCalls + 1⟩, .error e⟩ := by
  simp only [runLoop, hllm, hparse]
  try dsimp only
  rw [htool]

/-- Witness for C5: an unknown tool name on the first iteration fails
the run with `UnknownToolError` after one model call. -/
theorem c5_tool_failure_fatal_witness :
    runLoop (fun _ => .ok "\x7b\"type\":\"tool\",\"name\":\"bogus\"\x7d")
        [ "sandbox-lite".data ] false 5 ⟨[], [], Fs.empty, 0, 0⟩ =
      ⟨⟨[⟨"assistant", "\x7b\"type\":\"tool\",\"name\":\"bogus\"\x7d"⟩], [],
        Fs.empty, 1, 1⟩, .error (.unknownTool "bogus")⟩ := by
  have h := c5_tool_failure_fatal
    (fun _ => .ok "\x7b\"type\":\"tool\",\"name\":\"bogus\"\x7d")
    [ "sandbox-lite".data ] false 4 ⟨[], [], Fs.empty, 0, 0⟩
    "\x7b\"type\":\"tool\",\"name\":\"bogus\"\x7d" "bogus" (.obj [])
    [] Fs.empty (.unknownTool "bogus") rfl (by decide) (by decide)
  exact h

set_option maxRecDepth 8192 in
/-- Claim C4 counterexample: with a model emitting plain prose, the
invocation fails with `MalformedOutputError` but the message sequence at
the failure holds only the seeded system and user messages — the
offending assistant text was never appended, because the source parses
the completion before pushing it. -/
theorem c4_counterexample :
    (runLiteAgent ⟨some "k", none, some "m"⟩ (fun _ => .ok "hello there")
        [ "sandbox-lite".data ] Fs.empty "hi" false 6).result
      = .error (.malformedOutput "Invalid model output format (expected JSON).") ∧
    (runLiteAgent ⟨some "k", none, some "m"⟩ (fun _ => .ok "hello there")
        [ "sandbox-lite".data ] Fs.empty "hi" false 6).state.messages
      = [⟨"system", buildSystemPrompt TOOL_DEFINITIONS⟩, ⟨"user", "hi"⟩] := by
  decide

/-- Claim C4 (amended): in each iteration the raw assistant text is
appended to the message sequence verbatim only after it parses
successfully (and before the action is executed); when parsing fails,
the invocation errors with the message sequence unchanged, so the
offending assistant text is not recorded. -/
theorem c4_append_after_parse (llm : Llm) (rootSegs : List Seg) (incl : Bool)
    (fuel : Nat) (st : RunState) (content : String)
    (hllm : llm st.messages = .ok content) :
    (∀ e, parseModelOutput content = .error e →
      runLoop llm rootSegs incl (fuel + 1) st
        = ⟨⟨st.messages, st.steps, st.fs, st.modelCalls + 1, st.toolCalls⟩,
            .error e⟩) ∧
    (∀ a, parseModelOutput content = .ok a →
      st.messages ++ [⟨"assistant", content⟩]
        <+: (runLoop llm rootSegs incl (fuel + 1) st).state.messages) := by
  constructor
  · intro e hp
    simp only [runLoop, hllm, hp]
  · intro a hp
    simp only [runLoop, hllm, hp]
    cases a with
    | final c => exact List.prefix_refl _
    | tool name args =>
      try dsimp only
      cases hr : (runTool rootSegs st.fs name
          (if jsFalsy args then .obj [] else args)).result with
      | error e =>
        simp only [hr]
        exact List.prefix_refl _
      | ok r =>
        simp only [hr]
        refine List.IsPrefix.trans ?_
          (runLoop_messages_mono llm rootSegs incl fuel _)
        try dsimp only
        exact List.prefix_append _ _

/-- Witness for the amended C4: a prose completion errors with the
message sequence unchanged. -/
theorem c4_append_after_parse_witness :
    runLoop (fun _ => .ok "hello there") [ "sandbox-lite".data ] false 3
        ⟨[], [], Fs.empty, 0, 0⟩ =
      ⟨⟨[], [], Fs.empty, 1, 0⟩,
        .error (.malformedOutput "Invalid model output format (expected JSON).")⟩ := by
  have h := (c4_append_after_parse (fun _ => .ok "hello there")
    [ "sandbox-lite".data ] false 2 ⟨[], [], Fs.empty, 0, 0⟩
    "hello there" rfl).1
    (.malformedOutput "Invalid model output format (expected JSON).")
    (by decide)
  exact h

/-! ### Tool-layer claims (C6, C7, C8, C9) -/

theorem resolveSandboxPath_error_class (root user : List Char) (e : Err)
    (h : resolveSandboxPath root user = .error e) : e = .pathEscape ⟨user⟩ := by
  unfold resolveSandboxPath at h
  split at h
  · cases h
  · cases h
    rfl

theorem readFs_error_class (fs : Fs) (p : List Seg) (e : Err)
    (h : readFs fs p = .error e) : ∃ k, e = .fsFailure k := by
  unfold readFs at h
  split at h
  · cases h
    exact ⟨_, rfl⟩
  · split at h
    · cases h
    · split at h
      · cases h
        exact ⟨_, rfl⟩
      · cases h
        exact ⟨_, rfl⟩

theorem mkdirp_error_class (fs : Fs) (p : List Seg) (e : Err)
    (h : mkdirp fs p = .error e) : e = .fsFailure ENOTDIR := by
  unfold mkdirp at h
  split at h
  · cases h
    rfl
  · cases h

theorem writeFs_error_class (fs : Fs) (p : List Seg) (c : String) (e : Err)
    (h : writeFs fs p c = .error e) : e = .fsFailure EISDIR := by
  unfold writeFs at h
  split at h
  · cases h
    rfl
  · cases h

theorem mkdirp_ok (fs : Fs) (p : List Seg) (fs2 : Fs)
    (h : mkdirp fs p = .ok fs2) :
    fs2.files = fs.files ∧ fs2.rootExists = fs.rootExists ∧
    ∀ q ∈ relPrefixes p, q ∈ fs2.dirs := by
  unfold mkdirp at h
  split at h
  · cases h
  · cases h
    refine ⟨rfl, rfl, ?_⟩
    intro q hq
    by_cases hmem : fs.dirs.contains q = true
    · exact List.mem_append_left _ (List.elem_iff.mp hmem)
    · refine List.mem_append_right _ (List.mem_filter.mpr ⟨hq, ?_⟩)
      simp only [decide_eq_true_eq]
      exact hmem

theorem writeFs_ok (fs : Fs) (p : List Seg) (c : String) (fs2 : Fs)
    (h : writeFs fs p c = .ok fs2) :
    fs2.files = setFileFs fs.files p c ∧ fs2.dirs = fs.dirs ∧
    fs2.rootExists = fs.rootExists ∧ p ≠ [] ∧ ¬ fs.dirs.contains p = true := by
  unfold writeFs at h
  split at h
  · cases h
  · cases h
    rename_i hcond
    push_neg at hcond
    exact ⟨rfl, rfl, rfl, hcond.1, hcond.2⟩

theorem find?_setFileFs (files : List (List Seg × String)) (p : List Seg)
    (c : String) :
    (setFileFs files p c).find? (fun f => f.1 == p) = some (p, c) := by
  induction files with
  | nil => simp [setFileFs]
  | cons qd rest ih =>
    obtain ⟨q, d⟩ := qd
    unfold setFileFs
    by_cases hq : q == p
    · rw [if_pos hq]
      simp [List.find?_cons]
    · rw [if_neg hq]
      rw [List.find?_cons_of_neg _ (by simpa using hq)]
      exact ih

theorem mem_setFileFs (files : List (List Seg × String)) (p : List Seg)
    (c : String) :
    ∀ f ∈ setFileFs files p c, f = (p, c) ∨ f ∈ files := by
  induction files with
  | nil =>
    intro f hf
    simp [setFileFs] at hf
    exact Or.inl hf
  | cons qd rest ih =>
    obtain ⟨q, d⟩ := qd
    intro f hf
    unfold setFileFs at hf
    by_cases hq : q == p
    · rw [if_pos hq] at hf
      rcases List.mem_cons.mp hf with h | h
      · exact Or.inl h
      · exact Or.inr (List.mem_cons_of_mem _ h)
    · rw [if_neg hq] at hf
      rcases List.mem_cons.mp hf with h | h
      · exact Or.inr (h ▸ List.mem_cons_self _ _)
      · rcases ih f h with h' | h'
        · exact Or.inl h'
        · exact Or.inr (List.mem_cons_of_mem _ h')

theorem assertNonEmptyString_ok (v : Option Json) (field : String)
    (h : assertNonEmptyString v field = .ok ()) :
    ∃ s, v = some (.str s) ∧ trimChars s.data ≠ [] := by
  unfold assertNonEmptyString at h
  split at h
  · rename_i s
    split at h
    · cases h
    · rename_i hne
      exact ⟨s, rfl, hne⟩
  · cases h

/-- Claim C8: `list_files` permits no arguments — any key in the
argument object fails with `InvalidArgumentsError` before any filesystem
access — and otherwise returns the top-level entry names joined by
newlines; an empty sandbox yields the literal `(empty)` marker, which is
an ordinary success and not the empty string. -/
theorem c8_list_files (rootSegs : List Seg) (fs : Fs)
    (fields : List (String × Json)) :
    (fields ≠ [] → runTool rootSegs fs "list_files" (.obj fields)
      = ⟨[], fs, .error (.invalidArgs "list_files does not accept arguments.")⟩) ∧
    ((runTool rootSegs fs "list_files" (.obj [])).result
      = .ok (if topEntries { fs with rootExists := true } = [] then "(empty)"
        else ⟨joinSep '\n' (topEntries { fs with rootExists := true })⟩)) ∧
    (topEntries { fs with rootExists := true } = [] →
      (runTool rootSegs fs "list_files" (.obj [])).result = .ok "(empty)") ∧
    ("(empty)" : String) ≠ "" := by
  refine ⟨?_, ?_, ?_, by decide⟩
  · intro hne
    obtain ⟨f0, rest, rfl⟩ := List.exists_cons_of_ne_nil hne
    rfl
  · rw [runTool_listFiles]
  · intro h
    rw [runTool_listFiles]
    simp [h]

/-- Witness for C8: a nonempty argument object is rejected, and the
empty sandbox lists as `(empty)`. -/
theorem c8_list_files_witness :
    runTool [ "sandbox-lite".data ] Fs.empty "list_files"
        (.obj [("x", .null)])
      = ⟨[], Fs.empty, .error (.invalidArgs "list_files does not accept arguments.")⟩ ∧
    (runTool [ "sandbox-lite".data ] Fs.empty "list_files" (.obj [])).result
      = .ok "(empty)" := by
  constructor
  · exact (c8_list_files [ "sandbox-lite".data ] Fs.empty
      [("x", .null)]).1 (by decide)
  · exact (c8_list_files [ "sandbox-lite".data ] Fs.empty []).2.2.1 (by decide)

/-- Claim C6: `runTool` validates the tool name and the arguments before
touching the filesystem — on `UnknownToolError` or
`InvalidArgumentsError` the operation trace is empty and the filesystem
state unchanged — and every successful tool call's first filesystem
operation is the idempotent sandbox-root creation. -/
theorem c6_validate_before_fs (rootSegs : List Seg) (fs : Fs)
    (name : String) (args : Json) :
    ((∃ m, (runTool rootSegs fs name args).result = .error (.unknownTool m) ∨
        (runTool rootSegs fs name args).result = .error (.invalidArgs m)) →
      (runTool rootSegs fs name args).ops = [] ∧
      (runTool rootSegs fs name args).fs = fs) ∧
    (∀ r, (runTool rootSegs fs name args).result = .ok r →
      (runTool rootSegs fs name args).ops.head? = some .mkdirRoot) := by
  unfold runTool
  split
  · exact ⟨fun _ => ⟨rfl, rfl⟩, fun r hr => by cases hr⟩
  · split
    · exact ⟨fun _ => ⟨rfl, rfl⟩, fun r hr => by cases hr⟩
    · dsimp only
      by_cases hname : name = "list_files"
      · rw [if_pos hname]
        refine ⟨?_, fun r _ => rfl⟩
        rintro ⟨m, hm | hm⟩ <;> simp at hm
      · rw [if_neg hname]
        cases hres : resolveSandboxPath (segsToPath rootSegs)
            (argStr args "filePath").data with
        | error e =>
          simp only [hres]
          have hclass := resolveSandboxPath_error_class _ _ e hres
          refine ⟨?_, fun r hr => by cases hr⟩
          rintro ⟨m, hm | hm⟩ <;> simp [hclass] at hm
        | ok target =>
          simp only [hres]
          by_cases hrd : name = "read_file"
          · rw [if_pos hrd]
            cases hread : readFs { fs with rootExists := true }
                (List.drop rootSegs.length (resolvedSegs (segsToPath rootSegs)
                  (argStr args "filePath").data)) with
            | ok c =>
              simp only [hread]
              refine ⟨?_, fun r _ => rfl⟩
              rintro ⟨m, hm | hm⟩ <;> simp at hm
            | error e =>
              simp only [hread]
              obtain ⟨k, hk⟩ := readFs_error_class _ _ e hread
              refine ⟨?_, fun r hr => by cases hr⟩
              rintro ⟨m, hm | hm⟩ <;> simp [hk] at hm
          · rw [if_neg hrd]
            cases hmk : mkdirp { fs with rootExists := true }
                ((List.drop rootSegs.length (resolvedSegs (segsToPath rootSegs)
                  (argStr args "filePath").data)).dropLast) with
            | error e =>
              simp only [hmk]
              have hk := mkdirp_error_class _ _ e hmk
              refine ⟨?_, fun r hr => by cases hr⟩
              rintro ⟨m, hm | hm⟩ <;> simp [hk] at hm
            | ok fs2 =>
              simp only [hmk]
              cases hwr : writeFs fs2
                  (List.drop rootSegs.length (resolvedSegs (segsToPath rootSegs)
                    (argStr args "filePath").data)) (argStr args "content") with
              | error e =>
                simp only [hwr]
                have hk := writeFs_error_class _ _ _ e hwr
                refine ⟨?_, fun r hr => by cases hr⟩
                rintro ⟨m, hm | hm⟩ <;> simp [hk] at hm
              | ok fs3 =>
                simp only [hwr]
                refine ⟨?_, fun r _ => rfl⟩
                rintro ⟨m, hm | hm⟩ <;> simp at hm

/-- Witness for C6: an unknown tool leaves the filesystem untouched with
no operations, and a successful `list_files` starts with the root
creation. -/
theorem c6_validate_before_fs_witness :
    ((runTool [ "sandbox-lite".data ] Fs.empty "bogus" (.obj [])).ops = [] ∧
      (runTool [ "sandbox-lite".data ] Fs.empty "bogus" (.obj [])).fs
        = Fs.empty) ∧
    (runTool [ "sandbox-lite".data ] Fs.empty "list_files" (.obj [])).ops.head?
      = some .mkdirRoot := by
  constructor
  · exact (c6_validate_before_fs [ "sandbox-lite".data ] Fs.empty "bogus"
      (.obj [])).1 ⟨"bogus", Or.inl (by decide)⟩
  · exact (c6_validate_before_fs [ "sandbox-lite".data ] Fs.empty "list_files"
      (.obj [])).2 "(empty)" (by decide)

theorem validateArgs_read_str (p : String) :
    validateArgs "read_file" (.obj [("filePath", .str p)])
      = if trimChars p.data = [] then
          .error (.invalidArgs "filePath must be a non-empty string.")
        else .ok () := by
  unfold validateArgs
  dsimp only
  rw [if_neg (show ¬ ("read_file" = "list_files") from by decide),
    if_pos (show ("read_file" = "read_file") from rfl)]
  have h1 : lookupField [("filePath", Json.str p)] "filePath"
      = some (.str p) := rfl
  unfold assertNonEmptyString
  rw [h1]
  rfl

theorem validateArgs_write_strs (p c : String) :
    validateArgs "write_file"
        (.obj [("filePath", .str p), ("content", .str c)])
      = if trimChars p.data = [] then
          .error (.invalidArgs "filePath must be a non-empty string.")
        else if trimChars c.data = [] then
          .error (.invalidArgs "content must be a non-empty string.")
        else .ok () := by
  unfold validateArgs
  dsimp only
  rw [if_neg (show ¬ ("write_file" = "list_files") from by decide),
    if_neg (show ¬ ("write_file" = "read_file") from by decide),
    if_pos (show ("write_file" = "write_file") from rfl)]
  have h1 : lookupField [("filePath", Json.str p), ("content", Json.str c)]
      "filePath" = some (.str p) := rfl
  have h2 : lookupField [("filePath", Json.str p), ("content", Json.str c)]
      "content" = some (.str c) := rfl
  unfold assertNonEmptyString
  rw [h1, h2]
  dsimp only
  by_cases htp : trimChars p.data = []
  · rw [if_pos htp, if_pos htp]
    rfl
  · rw [if_neg htp, if_neg htp]
    rfl

/-- A successful `write_file` validation guarantees string, non-blank
`filePath` and `content` fields. -/
theorem validateArgs_write_ok (args : Json)
    (h : validateArgs "write_file" args = .ok ()) :
    trimChars (argStr args "filePath").data ≠ [] ∧
    trimChars (argStr args "content").data ≠ [] := by
  cases args with
  | obj fields =>
    unfold validateArgs at h
    dsimp only at h
    rw [if_neg (show ¬ ("write_file" = "list_files") from by decide),
      if_neg (show ¬ ("write_file" = "read_file") from by decide),
      if_pos (show ("write_file" = "write_file") from rfl)] at h
    cases ha : assertNonEmptyString (lookupField fields "filePath")
        "filePath" with
    | error e => rw [ha] at h; cases h
    | ok u =>
      rw [ha] at h
      obtain ⟨s, hs, hsne⟩ := assertNonEmptyString_ok _ _ (by
        cases u; exact ha)
      obtain ⟨t, htf, htne⟩ := assertNonEmptyString_ok _ _ h
      constructor
      · unfold argStr
        dsimp only
        rw [hs]
        exact hsne
      · unfold argStr
        dsimp only
        rw [htf]
        exact htne
  | null => cases h
  | bool b => cases h
  | num l => cases h
  | str s => cases h
  | arr es => cases h

/-- Claim C9: the tool layer rejects blank `filePath` (read and write)
and blank `content` (write) with `InvalidArgumentsError` before any
filesystem access; consequently a sandbox whose files all have non-blank
contents keeps that property across every tool call — no blank content
is ever written through the tool layer. -/
theorem c9_nonempty_string_validation (rootSegs : List Seg) (fs : Fs)
    (p c : String) :
    (trimChars p.data = [] →
      runTool rootSegs fs "read_file" (.obj [("filePath", .str p)])
        = ⟨[], fs, .error (.invalidArgs "filePath must be a non-empty string.")⟩ ∧
      runTool rootSegs fs "write_file"
          (.obj [("filePath", .str p), ("content", .str c)])
        = ⟨[], fs, .error (.invalidArgs "filePath must be a non-empty string.")⟩) ∧
    (trimChars p.data ≠ [] → trimChars c.data = [] →
      runTool rootSegs fs "write_file"
          (.obj [("filePath", .str p), ("content", .str c)])
        = ⟨[], fs, .error (.invalidArgs "content must be a non-empty string.")⟩) ∧
    ((∀ f ∈ fs.files, trimChars f.2.data ≠ []) →
      ∀ name args, ∀ f ∈ (runTool rootSegs fs name args).fs.files,
        trimChars f.2.data ≠ []) := by
  refine ⟨?_, ?_, ?_⟩
  · intro htp
    constructor
    · unfold runTool
      rw [if_neg (by decide), validateArgs_read_str, if_pos htp]
    · unfold runTool
      rw [if_neg (by decide), validateArgs_write_strs, if_pos htp]
  · intro htp htc
    unfold runTool
    rw [if_neg (by decide), validateArgs_write_strs, if_neg htp, if_pos htc]
  · intro hinv name args f hf
    unfold runTool at hf
    split at hf
    · exact hinv f hf
    · split at hf
      · exact hinv f hf
      · rename_i hval
        dsimp only at hf
        by_cases hname : name = "list_files"
        · rw [if_pos hname] at hf
          exact hinv f hf
        · rw [if_neg hname] at hf
          cases hres : resolveSandboxPath (segsToPath rootSegs)
              (argStr args "filePath").data with
          | error e =>
            simp only [hres] at hf
            exact hinv f hf
          | ok target =>
            simp only [hres] at hf
            by_cases hrd : name = "read_file"
            · rw [if_pos hrd] at hf
              cases hread : readFs { fs with rootExists := true }
                  (List.drop rootSegs.length (resolvedSegs (segsToPath rootSegs)
                    (argStr args "filePath").data)) with
              | ok c' =>
                simp only [hread] at hf
                exact hinv f hf
              | error e =>
                simp only [hread] at hf
                exact hinv f hf
            · rw [if_neg hrd] at hf
              cases hmk : mkdirp { fs with rootExists := true }
                  ((List.drop rootSegs.length (resolvedSegs (segsToPath rootSegs)
                    (argStr args "filePath").data)).dropLast) with
              | error e =>
                simp only [hmk] at hf
                exact hinv f hf
              | ok fs2 =>
                simp only [hmk] at hf
                have hfs2 := mkdirp_ok _ _ _ hmk
                cases hwr : writeFs fs2
                    (List.drop rootSegs.length (resolvedSegs (segsToPath rootSegs)
                      (argStr args "filePath").data)) (argStr args "content") with
                | error e =>
                  simp only [hwr] at hf
                  rw [hfs2.1] at hf
                  exact hinv f hf
                | ok fs3 =>
                  simp only [hwr] at hf
                  have hfs3 := writeFs_ok _ _ _ _ hwr
                  rw [hfs3.1, hfs2.1] at hf
                  have hwname : name = "write_file" := by
                    rename_i hguard _
                    rcases Decidable.not_not.mp hguard with h | h | h
                    · exact absurd h hname
                    · exact absurd h hrd
                    · exact h
                  rcases mem_setFileFs _ _ _ f hf with hcase | hcase
                  · rw [hcase]
                    exact (validateArgs_write_ok args (hwname ▸ hval)).2
                  · exact hinv f hcase

/-- Witness for C9: blank `filePath` and blank `content` are rejected
without touching the filesystem, and the invariant holds on the empty
sandbox. -/
theorem c9_nonempty_string_validation_witness :
    runTool [ "sandbox-lite".data ] Fs.empty "read_file"
        (.obj [("filePath", .str "  ")])
      = ⟨[], Fs.empty, .error (.invalidArgs "filePath must be a non-empty string.")⟩ ∧
    runTool [ "sandbox-lite".data ] Fs.empty "write_file"
        (.obj [("filePath", .str "a.txt"), ("content", .str " ")])
      = ⟨[], Fs.empty, .error (.invalidArgs "content must be a non-empty string.")⟩ := by
  constructor
  · exact ((c9_nonempty_string_validation [ "sandbox-lite".data ] Fs.empty
      "  " "x").1 (by decide)).1
  · exact (c9_nonempty_string_validation [ "sandbox-lite".data ] Fs.empty
      "a.txt" " ").2.1 (by decide) (by decide)

/-- Claim C7: whenever `write_file` succeeds for path `p` and content
`c`, it returns the confirmation referencing the unresolved `p`,
overwrites whatever was at the resolved path (the file store now maps it
to exactly `c`), creates the intermediate directories, and an immediate
`read_file` of `p` returns exactly `c`. -/
theorem c7_write_read_roundtrip (rootSegs : List Seg) (fs : Fs) (p c r : String)
    (hok : (runTool rootSegs fs "write_file"
        (.obj [("filePath", .str p), ("content", .str c)])).result = .ok r) :
    r = "Wrote " ++ p ∧
    (runTool rootSegs (runTool rootSegs fs "write_file"
        (.obj [("filePath", .str p), ("content", .str c)])).fs "read_file"
        (.obj [("filePath", .str p)])).result = .ok c ∧
    lookupFile (runTool rootSegs fs "write_file"
        (.obj [("filePath", .str p), ("content", .str c)])).fs
      ((resolvedSegs (segsToPath rootSegs) p.data).drop rootSegs.length)
      = some c ∧
    (∀ q ∈ relPrefixes (((resolvedSegs (segsToPath rootSegs) p.data).drop
        rootSegs.length).dropLast),
      q ∈ (runTool rootSegs fs "write_file"
        (.obj [("filePath", .str p), ("content", .str c)])).fs.dirs) := by
  have hguardw : ¬ ¬ ("write_file" = "list_files" ∨ "write_file" = "read_file"
      ∨ "write_file" = "write_file") := by decide
  have hguardr : ¬ ¬ ("read_file" = "list_files" ∨ "read_file" = "read_file"
      ∨ "read_file" = "write_file") := by decide
  have hfp : argStr (.obj [("filePath", Json.str p), ("content", Json.str c)])
      "filePath" = p := rfl
  have hct : argStr (.obj [("filePath", Json.str p), ("content", Json.str c)])
      "content" = c := rfl
  have hfpr : argStr (.obj [("filePath", Json.str p)]) "filePath" = p := rfl
  by_cases htp : trimChars p.data = []
  · exfalso
    unfold runTool at hok
    rw [if_neg hguardw, validateArgs_write_strs, if_pos htp] at hok
    simp at hok
  by_cases htc : trimChars c.data = []
  · exfalso
    unfold runTool at hok
    rw [if_neg hguardw, validateArgs_write_strs, if_neg htp, if_pos htc] at hok
    simp at hok
  have hval : validateArgs "write_file"
      (.obj [("filePath", .str p), ("content", .str c)]) = .ok () := by
    rw [validateArgs_write_strs, if_neg htp, if_neg htc]
  cases hres : resolveSandboxPath (segsToPath rootSegs) p.data with
  | error e =>
    exfalso
    unfold runTool at hok
    rw [if_neg hguardw, hval] at hok
    dsimp only at hok
    rw [if_neg (show ¬ ("write_file" = "list_files") from by decide)] at hok
    rw [hfp, hres] at hok
    simp at hok
  | ok target =>
    cases hmk : mkdirp { fs with rootExists := true }
        ((List.drop rootSegs.length
          (resolvedSegs (segsToPath rootSegs) p.data)).dropLast) with
    | error e =>
      exfalso
      unfold runTool at hok
      rw [if_neg hguardw, hval] at hok
      dsimp only at hok
      rw [if_neg (show ¬ ("write_file" = "list_files") from by decide)] at hok
      rw [hfp, hres] at hok
      dsimp only at hok
      rw [if_neg (show ¬ ("write_file" = "read_file") from by decide),
        hmk] at hok
      simp at hok
    | ok fs2 =>
      cases hwr : writeFs fs2 (List.drop rootSegs.length
          (resolvedSegs (segsToPath rootSegs) p.data)) c with
      | error e =>
        exfalso
        unfold runTool at hok
        rw [if_neg hguardw, hval] at hok
        dsimp only at hok
        rw [if_neg (show ¬ ("write_file" = "list_files") from by decide)] at hok
        rw [hfp, hct, hres] at hok
        dsimp only at hok
        rw [if_neg (show ¬ ("write_file" = "read_file") from by decide),
          hmk] at hok
        dsimp only at hok
        rw [hwr] at hok
        simp at hok
      | ok fs3 =>
        have hrun : runTool rootSegs fs "write_file"
            (.obj [("filePath", .str p), ("content", .str c)])
            = ⟨[.mkdirRoot,
                .dirsMake ((List.drop rootSegs.length
                  (resolvedSegs (segsToPath rootSegs) p.data)).dropLast),
                .fileWrite (List.drop rootSegs.length
                  (resolvedSegs (segsToPath rootSegs) p.data)) c],
                fs3, .ok ("Wrote " ++ p)⟩ := by
          unfold runTool
          rw [if_neg hguardw, hval]
          dsimp only
          rw [if_neg (show ¬ ("write_file" = "list_files") from by decide)]
          rw [hfp, hct, hres]
          dsimp only
          rw [if_neg (show ¬ ("write_file" = "read_file") from by decide), hmk]
          dsimp only
          rw [hwr]
        have hwok := writeFs_ok _ _ _ _ hwr
        have hmkok := mkdirp_ok _ _ _ hmk
        have hlook : lookupFile fs3 (List.drop rootSegs.length
            (resolvedSegs (segsToPath rootSegs) p.data)) = some c := by
          unfold lookupFile
          rw [hwok.1, find?_setFileFs]
        have hread : readFs { fs3 with rootExists := true }
            (List.drop rootSegs.length
              (resolvedSegs (segsToPath rootSegs) p.data)) = .ok c := by
          unfold readFs
          rw [if_neg hwok.2.2.2.1]
          have hlook2 : lookupFile { fs3 with rootExists := true }
              (List.drop rootSegs.length
                (resolvedSegs (segsToPath rootSegs) p.data)) = some c := hlook
          rw [hlook2]
        have hrun2 : runTool rootSegs fs3 "read_file"
            (.obj [("filePath", .str p)])
            = ⟨[.mkdirRoot, .fileRead (List.drop rootSegs.length
                (resolvedSegs (segsToPath rootSegs) p.data))],
                { fs3 with rootExists := true }, .ok c⟩ := by
          unfold runTool
          rw [if_neg hguardr, validateArgs_read_str, if_neg htp]
          dsimp only
          rw [if_neg (show ¬ ("read_file" = "list_files") from by decide)]
          rw [hfpr, hres]
          dsimp only
          rw [if_pos (show ("read_file" = "read_file") from rfl), hread]
        refine ⟨?_, ?_, ?_, ?_⟩
        · rw [hrun] at hok
          simp at hok
          exact hok.symm
        · rw [hrun]
          dsimp only
          rw [hrun2]
        · rw [hrun]
          exact hlook
        · intro q hq
          rw [hrun]
          dsimp only
          rw [hwok.2.1]
          exact hmkok.2.2 q hq

/-- Witness for C7 at `a/b.txt` ↦ `hi` on the empty sandbox. -/
theorem c7_write_read_roundtrip_witness :
    ("Wrote a/b.txt" : String) = "Wrote " ++ "a/b.txt" ∧
    (runTool [ "sandbox-lite".data ]
        (runTool [ "sandbox-lite".data ] Fs.empty "write_file"
          (.obj [("filePath", .str "a/b.txt"), ("content", .str "hi")])).fs
        "read_file" (.obj [("filePath", .str "a/b.txt")])).result
      = .ok "hi" := by
  have h := c7_write_read_roundtrip [ "sandbox-lite".data ] Fs.empty
    "a/b.txt" "hi" "Wrote a/b.txt" (by decide)
  exact ⟨h.1, h.2.1⟩

end HelloAgent
